import Mathlib

/-!
Verification of the TaskMaster status-reconciliation, task-list normalization,
MCP-server detection and template-placeholder logic of the claudecodeui
repository, against its natural-language specification.

The JavaScript source is shallowly embedded: parsed JSON documents become the
inductive type `JVal`, JavaScript property access, truthiness, key enumeration
and short-circuit defaulting become total Lean functions, and code positions
where JavaScript would throw a TypeError become `Except.error ()`.
-/

/-- A parsed JSON document, plus the JavaScript value `undefined`, which is
what property access on a record without that property produces.  Object
fields keep insertion order, as JavaScript object enumeration does for the
string keys produced by JSON.parse. -/
inductive JVal where
  | undefined
  | null
  | bool (b : Bool)
  | num (n : Int)
  | str (s : String)
  | arr (elems : List JVal)
  | obj (fields : List (String × JVal))
  deriving Repr

/-- JavaScript truthiness: undefined, null, false, 0 and the empty string are
falsy; arrays and objects (empty or not) are truthy.  (NaN, absent from parsed
JSON integers, is not modelled.) -/
def JVal.truthy : JVal → Bool
  | .undefined => false
  | .null => false
  | .bool b => b
  | .num n => !(n == 0)
  | .str s => !(s == "")
  | .arr _ => true
  | .obj _ => true

/-- Is the value null or undefined?  Property access on such a value throws. -/
def JVal.isNullish : JVal → Bool
  | .undefined => true
  | .null => true
  | _ => false

/-- `Array.isArray`. -/
def JVal.isArrB : JVal → Bool
  | .arr _ => true
  | _ => false

def JVal.isStrB : JVal → Bool
  | .str _ => true
  | _ => false

def JVal.getStr : JVal → String
  | .str s => s
  | _ => ""

/-- The numeric value of a decimal digit character. -/
def digitVal? (c : Char) : Option Nat :=
  let n := c.toNat
  if 48 ≤ n ∧ n ≤ 57 then some (n - 48) else none

def decDigits? : List Char → Nat → Option Nat
  | [], acc => some acc
  | c :: cs, acc =>
    match digitVal? c with
    | some d => decDigits? cs (acc * 10 + d)
    | none => none

/-- A string that is a canonical decimal array index (as JavaScript array
index keys are: no sign, no leading zero except for "0" itself). -/
def decIndex? (s : String) : Option Nat :=
  match s.toList with
  | [] => none
  | ['0'] => some 0
  | '0' :: _ => none
  | cs => decDigits? cs 0

/-- Property lookup `v[k]` for non-nullish `v`: objects look the key up,
arrays and strings expose their elements under canonical decimal-index keys,
any other access yields `undefined`. -/
def jsGet : JVal → String → JVal
  | .obj fs, k =>
    match fs.find? (fun p => p.1 == k) with
    | some p => p.2
    | none => .undefined
  | .arr xs, k =>
    match decIndex? k with
    | some i => (match xs.get? i with | some v => v | none => .undefined)
    | none => .undefined
  | .str s, k =>
    match decIndex? k with
    | some i => (match s.toList.get? i with | some c => .str (String.mk [c]) | none => .undefined)
    | none => .undefined
  | _, _ => .undefined

/-- Property access `v.k`, which throws a TypeError when `v` is null or
undefined. -/
def jsGetE (v : JVal) (k : String) : Except Unit JVal :=
  if v.isNullish then .error () else .ok (jsGet v k)

/-- `Object.keys`.  Objects enumerate their keys in insertion order, arrays
and strings enumerate their decimal indices, other primitives have no keys.
(`Object.keys` is never reached with a nullish argument in the embedded
code paths.) -/
def jsKeys : JVal → List String
  | .obj fs => fs.map (fun p => p.1)
  | .arr xs => (List.range xs.length).map (fun i => toString i)
  | .str s => (List.range s.length).map (fun i => toString i)
  | _ => []

/-- The JavaScript short-circuit default `a || b`. -/
def jsOr (a b : JVal) : JVal := if a.truthy then a else b

/-- Does an object literally carry the key? -/
def hasKeyB : JVal → String → Bool
  | .obj fs, k => fs.any (fun p => p.1 == k)
  | _, _ => false

/-!
## Status reconciliation

From the `/detect/:projectName` and `/detect-all` handlers:

    let status = 'not-configured';
    if (taskMasterResult.hasTaskmaster && taskMasterResult.hasEssentialFiles) {
        if (mcpResult.hasMCPServer && mcpResult.isConfigured) {
            status = 'fully-configured';
        } else {
            status = 'taskmaster-only';
        }
    } else if (mcpResult.hasMCPServer && mcpResult.isConfigured) {
        status = 'mcp-only';
    }
-/

/-- The status computation of the detection handlers, over the four booleans
the surrounding code has already derived. -/
def reconcile (hasTaskmaster hasEssentialFiles hasMCPServer isConfigured : Bool) : String :=
  if hasTaskmaster && hasEssentialFiles then
    if hasMCPServer && isConfigured then "fully-configured" else "taskmaster-only"
  else if hasMCPServer && isConfigured then "mcp-only"
  else "not-configured"

/-- The truth table of spec section 4.1, exactly as the specification states
it, over the pair `(taskmasterPresent, mcpConfigured)`. -/
def statusTable : Bool → Bool → String
  | true, true => "fully-configured"
  | true, false => "taskmaster-only"
  | false, true => "mcp-only"
  | false, false => "not-configured"

/-!
## Task list normalization

From the `/tasks/:projectName` handler (the pure part, after JSON.parse):

    let tasks = [];
    let currentTag = 'master';
    if (Array.isArray(tasksData)) {
        tasks = tasksData;
    } else if (tasksData.tasks) {
        tasks = tasksData.tasks;
    } else {
        if (tasksData[currentTag] && tasksData[currentTag].tasks) {
            tasks = tasksData[currentTag].tasks;
        } else if (tasksData.master && tasksData.master.tasks) {
            tasks = tasksData.master.tasks;
        } else {
            const firstTag = Object.keys(tasksData).find(key =>
                tasksData[key].tasks && Array.isArray(tasksData[key].tasks));
            if (firstTag) { tasks = tasksData[firstTag].tasks; currentTag = firstTag; }
        }
    }

followed by `tasks.map(...)` with per-field defaulting and the six fixed
`tasksByStatus` counters.
-/

/-- The `Object.keys(tasksData).find(...)` scan of the tagged-format branch.
The callback dereferences `tasksData[key].tasks`, so a null or undefined tag
value throws before any later key is tried. -/
def findFirstTag (j : JVal) : List String → Except Unit (Option String)
  | [] => .ok none
  | k :: ks =>
    let v := jsGet j k
    if v.isNullish then .error ()
    else
      let tv := jsGet v "tasks"
      if tv.truthy && tv.isArrB then .ok (some k) else findFirstTag j ks

/-- Shape resolution of the `/tasks/:projectName` handler: the value bound to
`tasks` and the final `currentTag`.  The source checks the master tag twice
(once through `tasksData[currentTag]` with `currentTag = 'master'`, once
through `tasksData.master`); both checks are kept.  A found tag is only used
when truthy, i.e. a matching empty-string key leaves the defaults in place. -/
def resolveTasks (j : JVal) : Except Unit (JVal × String) :=
  if j.isArrB then .ok (j, "master")
  else do
    let t ← jsGetE j "tasks"
    if t.truthy then pure (t, "master")
    else do
      let m ← jsGetE j "master"
      if m.truthy && (jsGet m "tasks").truthy then pure (jsGet m "tasks", "master")
      else do
        let m2 ← jsGetE j "master"
        if m2.truthy && (jsGet m2 "tasks").truthy then pure (jsGet m2 "tasks", "master")
        else do
          let ft ← findFirstTag j (jsKeys j)
          match ft with
          | some k =>
            if k == "" then pure (.arr [], "master")
            else pure (jsGet (jsGet j k) "tasks", k)
          | none => pure (.arr [], "master")

/-- One step of `tasks.map(task => ({...}))`: every output field is the
source field short-circuit-defaulted with `||`.  Property access on a null or
undefined array element throws.  `now` stands for the
`new Date().toISOString()` value the handler takes from the clock. -/
def transformBody (now : String) (task : JVal) : JVal :=
  .obj [
    ("id", jsGet task "id"),
    ("title", jsOr (jsGet task "title") (.str "Untitled Task")),
    ("description", jsOr (jsGet task "description") (.str "")),
    ("status", jsOr (jsGet task "status") (.str "pending")),
    ("priority", jsOr (jsGet task "priority") (.str "medium")),
    ("dependencies", jsOr (jsGet task "dependencies") (.arr [])),
    ("createdAt", jsOr (jsGet task "createdAt") (jsOr (jsGet task "created") (.str now))),
    ("updatedAt", jsOr (jsGet task "updatedAt") (jsOr (jsGet task "updated") (.str now))),
    ("details", jsOr (jsGet task "details") (.str "")),
    ("testStrategy", jsOr (jsGet task "testStrategy") (jsOr (jsGet task "test_strategy") (.str ""))),
    ("subtasks", jsOr (jsGet task "subtasks") (.arr []))]

/-- One step of the map, with the throw on nullish elements. -/
def transformTask (now : String) (task : JVal) : Except Unit JVal :=
  if task.isNullish then .error () else .ok (transformBody now task)

/-- `Array.prototype.map` with a callback that may throw: elements are
processed left to right and the first throw propagates. -/
def mapE (f : JVal → Except Unit JVal) : List JVal → Except Unit (List JVal)
  | [] => .ok []
  | x :: xs => do
    let y ← f x
    let ys ← mapE f xs
    pure (y :: ys)

/-- The strict comparison `t.status === s` of the `tasksByStatus` filters:
true exactly when the status field is the string `s`. -/
def statusIs (v : JVal) (s : String) : Bool :=
  match v with
  | .str t => t == s
  | _ => false

/-- One `tasksByStatus` counter: `tasks.filter(t => t.status === s).length`. -/
def statusCount (xs : List JVal) (s : String) : Nat :=
  xs.countP (fun t => statusIs (jsGet t "status") s)

/-- The `tasksByStatus` record built by the handler: exactly the six fixed
status keys, in source order. -/
def sixBuckets (xs : List JVal) : List (String × Nat) :=
  [("pending", statusCount xs "pending"),
   ("in-progress", statusCount xs "in-progress"),
   ("done", statusCount xs "done"),
   ("review", statusCount xs "review"),
   ("deferred", statusCount xs "deferred"),
   ("cancelled", statusCount xs "cancelled")]

/-- The normalizer output the handler serializes: the transformed task list,
the resolved tag and the bucketed counts. -/
structure NormResult where
  tasks : List JVal
  currentTag : String
  tasksByStatus : List (String × Nat)
  deriving Repr

/-- The pure core of the `/tasks/:projectName` handler after JSON.parse:
resolve the shape, transform every task, bucket the statuses.  Calling
`.map` on a resolved non-array value throws, as in the source. -/
def normalizeTasks (now : String) (j : JVal) : Except Unit NormResult := do
  let r ← resolveTasks j
  match r.1 with
  | .arr xs => do
    let ts ← mapE (transformTask now) xs
    pure ⟨ts, r.2, sixBuckets ts⟩
  | _ => .error ()

/-!
## Specification-side resolution policy (claim C2)

`resolveTasksClaim` is written from the words of the specification, not from
the source, to be compared with `resolveTasks`: rule 2 requires the `tasks`
field to exist AND be a list, rule 3 requires `master.tasks` to exist, rule 4
takes the first key whose value has a `tasks` list.
-/

/-- Rule 4 as the claim states it: the first key in enumeration order whose
value has a `tasks` list. -/
def claimFirstTag (j : JVal) : List String → Option String
  | [] => none
  | k :: ks => if (jsGet (jsGet j k) "tasks").isArrB then some k else claimFirstTag j ks

/-- The four-rule resolution policy exactly as claim C2 states it. -/
def resolveTasksClaim (j : JVal) : JVal × String :=
  if j.isArrB then (j, "master")
  else if hasKeyB j "tasks" && (jsGet j "tasks").isArrB then (jsGet j "tasks", "master")
  else if hasKeyB (jsGet j "master") "tasks" then (jsGet (jsGet j "master") "tasks", "master")
  else
    match claimFirstTag j (jsKeys j) with
    | some k => (jsGet (jsGet j k) "tasks", k)
    | none => (.arr [], "master")

/-- Rule 4 as the source behaves: first key whose value has a truthy `tasks`
field that is an array.  Total version of `findFirstTag`, meaningful when the
scan meets no nullish tag value first. -/
def scanFirst (j : JVal) : List String → Option String
  | [] => none
  | k :: ks =>
    let tv := jsGet (jsGet j k) "tasks"
    if tv.truthy && tv.isArrB then some k else scanFirst j ks

/-- Does the rule-4 scan run to its answer without dereferencing a nullish
tag value? -/
def scanNoThrow (j : JVal) : List String → Bool
  | [] => true
  | k :: ks =>
    if (jsGet j k).isNullish then false
    else
      let tv := jsGet (jsGet j k) "tasks"
      if tv.truthy && tv.isArrB then true else scanNoThrow j ks

/-- Inputs on which shape resolution cannot throw: non-nullish, and when the
rule-4 scan is reached it meets no nullish tag value before its answer. -/
def resolveSafe (j : JVal) : Bool :=
  if j.isNullish then false
  else if j.isArrB then true
  else if (jsGet j "tasks").truthy then true
  else if (jsGet j "master").truthy && (jsGet (jsGet j "master") "tasks").truthy then true
  else scanNoThrow j (jsKeys j)

/-- The resolution policy the source actually implements, as a total
function on inputs satisfying `resolveSafe`: rule 2 fires on any truthy
`tasks` field (list or not), rule 3 on a truthy `master` value with truthy
`master.tasks`, rule 4 on the first key whose value has a truthy array
`tasks` field — except that a matching empty-string key is ignored. -/
def resolveTasksAmended (j : JVal) : JVal × String :=
  if j.isArrB then (j, "master")
  else
    let t := jsGet j "tasks"
    if t.truthy then (t, "master")
    else
      let m := jsGet j "master"
      if m.truthy && (jsGet m "tasks").truthy then (jsGet m "tasks", "master")
      else
        match scanFirst j (jsKeys j) with
        | some k => if k == "" then (.arr [], "master") else (jsGet (jsGet j k) "tasks", k)
        | none => (.arr [], "master")

/-!
## Safety envelope of the whole normalizer (claim C3)
-/

/-- Is the value an array all of whose elements survive the per-task property
accesses of the transform (i.e. are non-nullish)? -/
def tasksArrOk : JVal → Bool
  | .arr xs => xs.all (fun t => !t.isNullish)
  | _ => false

/-- Like `scanNoThrow`, but additionally requires the found tag (when it is
used, i.e. non-empty) to hold an array of non-nullish tasks, so that the
subsequent `tasks.map` cannot throw either. -/
def scanSafe (j : JVal) : List String → Bool
  | [] => true
  | k :: ks =>
    if (jsGet j k).isNullish then false
    else
      let tv := jsGet (jsGet j k) "tasks"
      if tv.truthy && tv.isArrB then (k == "" || tasksArrOk tv)
      else scanSafe j ks

/-- Inputs on which the whole normalizer cannot throw: resolution is safe and
the resolved task-list value is an array of non-nullish records. -/
def safeInput (j : JVal) : Bool :=
  if j.isNullish then false
  else if j.isArrB then tasksArrOk j
  else
    let t := jsGet j "tasks"
    if t.truthy then tasksArrOk t
    else
      let m := jsGet j "master"
      if m.truthy && (jsGet m "tasks").truthy then tasksArrOk (jsGet m "tasks")
      else scanSafe j (jsKeys j)

/-!
## Clock dependence of the normalizer (claim C7)
-/

/-- Does a task record carry its own truthy timestamps, so that the
transform never reaches the `new Date().toISOString()` defaults? -/
def timesOk (t : JVal) : Bool :=
  ((jsGet t "createdAt").truthy || (jsGet t "created").truthy) &&
  ((jsGet t "updatedAt").truthy || (jsGet t "updated").truthy)

/-- Inputs whose normalization does not depend on the clock: every resolved
task record either throws (nullish) or carries its own timestamps. -/
def clockFree (j : JVal) : Bool :=
  match resolveTasks j with
  | .ok (.arr xs, _) => xs.all (fun x => x.isNullish || timesOk x)
  | _ => true

/-- Observer used to separate two normalizer outputs: the `createdAt` string
of the single transformed task. -/
def probeCreatedAt (r : Except Unit NormResult) : String :=
  match r with
  | .ok rr =>
    match rr.tasks with
    | [t] => (jsGet t "createdAt").getStr
    | _ => ""
  | _ => ""

/-!
## Folder-detection task statistics

From `detectTaskMasterFolder` (the pure part, after JSON.parse):

    const stats = tasks.reduce((acc, task) => {
        acc.total++;
        acc[task.status] = (acc[task.status] || 0) + 1;
        if (task.subtasks) {
            task.subtasks.forEach(subtask => {
                acc.subtotalTasks++;
                acc.subtasks = acc.subtasks || {};
                acc.subtasks[subtask.status] = (acc.subtasks[subtask.status] || 0) + 1;
            });
        }
        return acc;
    }, { total: 0, subtotalTasks: 0, pending: 0, 'in-progress': 0, done: 0,
         review: 0, deferred: 0, cancelled: 0, subtasks: {} });

    taskMetadata = {
        taskCount: stats.total,
        subtaskCount: stats.subtotalTasks,
        completed: stats.done || 0,
        pending: stats.pending || 0,
        inProgress: stats['in-progress'] || 0,
        review: stats.review || 0,
        completionPercentage: stats.total > 0 ? Math.round((stats.done / stats.total) * 100) : 0,
        ...
    };

(The `lastModified` field is filesystem data outside this core.)
-/

/-- Property write `o[k] = v`: update the slot in place, or append in
insertion order. -/
def objSet : List (String × JVal) → String → JVal → List (String × JVal)
  | [], k, v => [(k, v)]
  | (k2, v2) :: fs, k, v =>
    if k2 == k then (k2, v) :: fs else (k2, v2) :: objSet fs k v

/-- Slot lookup on the accumulator object. -/
def objGet (fs : List (String × JVal)) (k : String) : JVal :=
  match fs.find? (fun p => p.1 == k) with
  | some p => p.2
  | none => .undefined

/-- The numeric reading of a slot: its value for numbers, 0 otherwise. -/
def toNum : JVal → Int
  | .num n => n
  | _ => 0

/-- `(v || 0) + 1` for the numeric-or-missing slot values these counters
hold.  JavaScript coercion of non-numeric truthy slot values (reachable only
when a status string collides with the `total`, `subtotalTasks` or
`subtasks` slots) is not modelled; the well-formedness hypotheses of the
theorems below exclude those statuses. -/
def jsIncr (v : JVal) : JVal := .num (toNum v + 1)

mutual

/-- JavaScript ToString as used for the property key `acc[task.status]`:
undefined and null stringify to their names, booleans and numbers to their
decimal text, arrays join their stringified elements with commas (nullish
elements becoming empty), objects to `[object Object]`. -/
def jsToStringKey : JVal → String
  | .undefined => "undefined"
  | .null => "null"
  | .bool b => cond b "true" "false"
  | .num n => toString n
  | .str s => s
  | .obj _ => "[object Object]"
  | .arr xs => String.intercalate "," (jsToStrElems xs)

def jsToStrElems : List JVal → List String
  | [] => []
  | x :: xs => (if x.isNullish then "" else jsToStringKey x) :: jsToStrElems xs

end

/-- The property key the stats fold counts a task under. -/
def statusKeyOf (task : JVal) : String := jsToStringKey (jsGet task "status")

/-- One subtask step of the inner `forEach`. -/
def subStep (acc : List (String × JVal)) (sub : JVal) : Except Unit (List (String × JVal)) :=
  if sub.isNullish then .error ()
  else
    let acc1 := objSet acc "subtotalTasks" (jsIncr (objGet acc "subtotalTasks"))
    let acc2 := objSet acc1 "subtasks" (jsOr (objGet acc1 "subtasks") (.obj []))
    let sk := jsToStringKey (jsGet sub "status")
    let so2 :=
      match objGet acc2 "subtasks" with
      | .obj fs => JVal.obj (objSet fs sk (jsIncr (objGet fs sk)))
      | v => v
    .ok (objSet acc2 "subtasks" so2)

def subFold (acc : List (String × JVal)) : List JVal → Except Unit (List (String × JVal))
  | [] => .ok acc
  | sub :: subs => do subFold (← subStep acc sub) subs

/-- One step of the stats reduce.  Property access on a nullish task throws;
`forEach` on a truthy non-array `subtasks` value throws. -/
def statsStep (acc : List (String × JVal)) (task : JVal) : Except Unit (List (String × JVal)) :=
  if task.isNullish then .error ()
  else
    let acc1 := objSet acc "total" (jsIncr (objGet acc "total"))
    let k := statusKeyOf task
    let acc2 := objSet acc1 k (jsIncr (objGet acc1 k))
    let st := jsGet task "subtasks"
    if st.truthy then
      match st with
      | .arr subs => subFold acc2 subs
      | _ => .error ()
    else .ok acc2

/-- The initial accumulator literal, keys in source order. -/
def initialAcc : List (String × JVal) :=
  [("total", .num 0), ("subtotalTasks", .num 0), ("pending", .num 0),
   ("in-progress", .num 0), ("done", .num 0), ("review", .num 0),
   ("deferred", .num 0), ("cancelled", .num 0), ("subtasks", .obj [])]

def statsFoldFrom (acc : List (String × JVal)) : List JVal → Except Unit (List (String × JVal))
  | [] => .ok acc
  | t :: ts => do statsFoldFrom (← statsStep acc t) ts

/-- `Math.round` on the exact rational value: round half toward positive
infinity.  The double-precision evaluation of `(done/total)*100` in the
source is modelled by exact rational arithmetic. -/
def mathRound (q : ℚ) : ℤ := ⌊q + 1/2⌋

/-- The numeric fields of the `taskMetadata` record. -/
structure TaskMetadata where
  taskCount : Int
  subtaskCount : Int
  completed : Int
  pending : Int
  inProgress : Int
  review : Int
  completionPercentage : Int
  deriving Repr, DecidableEq

/-- The metadata computation over the collected task list. -/
def taskMetadataOf (tasks : List JVal) : Except Unit TaskMetadata := do
  let stats ← statsFoldFrom initialAcc tasks
  let total := toNum (objGet stats "total")
  let done := toNum (objGet stats "done")
  pure {
    taskCount := total
    subtaskCount := toNum (objGet stats "subtotalTasks")
    completed := toNum (jsOr (objGet stats "done") (.num 0))
    pending := toNum (jsOr (objGet stats "pending") (.num 0))
    inProgress := toNum (jsOr (objGet stats "in-progress") (.num 0))
    review := toNum (jsOr (objGet stats "review") (.num 0))
    completionPercentage :=
      if total > 0 then mathRound ((done : ℚ) / (total : ℚ) * 100) else 0 }

/-- Does the status value stringify the way the data model says statuses
are: a string, or absent (undefined), or null? -/
def statusPrim (t : JVal) : Bool :=
  match jsGet t "status" with
  | .str _ => true
  | .undefined => true
  | .null => true
  | _ => false

/-- Task records the stats fold processes without throwing and without
corrupting its reserved slots: non-nullish, a primitive status whose key
avoids the three reserved slot names, and subtasks that are absent/falsy or
an array of non-nullish records. -/
def wfStatsTask (t : JVal) : Bool :=
  !t.isNullish && statusPrim t &&
  !(statusKeyOf t == "total") && !(statusKeyOf t == "subtotalTasks") &&
  !(statusKeyOf t == "subtasks") &&
  (let st := jsGet t "subtasks"
   !st.truthy ||
     (match st with
      | .arr subs => subs.all (fun x => !x.isNullish)
      | _ => false))

/-!
## MCP server detection

From `detectTaskMasterMCPServer` (the pure part, over the parsed
configuration document):

    if (configData.mcpServers && typeof configData.mcpServers === 'object') {
        const serverEntry = Object.entries(configData.mcpServers).find(([name, config]) =>
            name === 'task-master-ai' ||
            name.includes('task-master') ||
            (config && config.command && config.command.includes('task-master')));
        if (serverEntry) { taskMasterServer = { name, scope: 'user', config,
            type: config.command ? 'stdio' : (config.url ? 'http' : 'unknown') }; }
    }
    if (!taskMasterServer && configData.projects) {
        for (const [projectPath, projectConfig] of Object.entries(configData.projects)) {
            if (projectConfig.mcpServers && typeof projectConfig.mcpServers === 'object') {
                ... same find, scope: 'local', break on match ...
            }
        }
    }
    if (taskMasterServer) {
        const isValid = !!(taskMasterServer.config &&
            (taskMasterServer.config.command || taskMasterServer.config.url));
        return { hasMCPServer: true, isConfigured: isValid, scope, ... };
    } else { return { hasMCPServer: false, ... }; }

with the whole body wrapped in a try/catch whose catch returns
`hasMCPServer: false`.  The diagnostic fields (reason, configPath,
availableServers, hasApiKeys and the config echo) are presentation data and
are not modelled.
-/

def JVal.isObjB : JVal → Bool
  | .obj _ => true
  | _ => false

/-- `v && typeof v === 'object'`: a non-null object or array. -/
def isObjectLike : JVal → Bool
  | .obj _ => true
  | .arr _ => true
  | _ => false

/-- `Object.entries`: objects in insertion order, arrays and strings under
their decimal indices, primitives empty. -/
def jsEntries : JVal → List (String × JVal)
  | .obj fs => fs
  | .arr xs => xs.enum.map (fun p => (toString p.1, p.2))
  | .str s => s.toList.enum.map (fun p => (toString p.1, .str (String.mk [p.2])))
  | _ => []

def hasSubList (pat : List Char) : List Char → Bool
  | [] => pat.isEmpty
  | c :: cs => pat.isPrefixOf (c :: cs) || hasSubList pat cs

/-- `s.includes(pat)`: substring containment. -/
def strContains (s pat : String) : Bool := hasSubList pat.toList s.toList

/-- The `find` callback over one `[name, config]` entry; calling `.includes`
on a truthy non-string `command` throws. -/
def mcpEntryMatchesE (name : String) (config : JVal) : Except Unit Bool :=
  if name == "task-master-ai" then .ok true
  else if strContains name "task-master" then .ok true
  else if config.truthy then
    let cmd := jsGet config "command"
    if cmd.truthy then
      match cmd with
      | .str s2 => .ok (strContains s2 "task-master")
      | _ => .error ()
    else .ok false
  else .ok false

/-- `Object.entries(...).find(...)` with the throwing callback. -/
def findEntryE : List (String × JVal) → Except Unit (Option (String × JVal))
  | [] => .ok none
  | (n, c) :: rest => do
    let b ← mcpEntryMatchesE n c
    if b then .ok (some (n, c)) else findEntryE rest

/-- `config.command ? 'stdio' : (config.url ? 'http' : 'unknown')`, which
throws when the matched entry's config is null or undefined. -/
def serverTypeE (config : JVal) : Except Unit String :=
  if config.isNullish then .error ()
  else if (jsGet config "command").truthy then .ok "stdio"
  else if (jsGet config "url").truthy then .ok "http"
  else .ok "unknown"

/-- The loop over `Object.entries(configData.projects)`: dereferencing a
nullish project value throws; a project without an object-typed `mcpServers`
is skipped; the first matching entry wins. -/
def projFindE : List (String × JVal) → Except Unit (Option (String × JVal))
  | [] => .ok none
  | (_, pc) :: rest =>
    if pc.isNullish then .error ()
    else
      let ms := jsGet pc "mcpServers"
      if ms.truthy && isObjectLike ms then do
        let f ← findEntryE (jsEntries ms)
        match f with
        | some nc => .ok (some nc)
        | none => projFindE rest
      else projFindE rest

/-- The fields of the detection result the claims are about. -/
structure MCPResult where
  hasMCPServer : Bool
  isConfigured : Option Bool
  scope : Option String
  deriving Repr, DecidableEq

def mcpNotFound : MCPResult := ⟨false, none, none⟩

/-- The body of `detectTaskMasterMCPServer` over the parsed configuration,
before the surrounding catch. -/
def detectCoreE (configData : JVal) : Except Unit MCPResult := do
  if !configData.truthy then pure mcpNotFound
  else
    let ms := jsGet configData "mcpServers"
    let userFound ←
      if ms.truthy && isObjectLike ms then findEntryE (jsEntries ms) else pure none
    let found ←
      match userFound with
      | some nc => pure (some ("user", nc))
      | none =>
        let pr := jsGet configData "projects"
        if pr.truthy then do
          let pf ← projFindE (jsEntries pr)
          match pf with
          | some nc => pure (some ("local", nc))
          | none => pure none
        else pure none
    match found with
    | some snc => do
      let _ty ← serverTypeE snc.2.2
      let isValid := snc.2.2.truthy &&
        ((jsGet snc.2.2 "command").truthy || (jsGet snc.2.2 "url").truthy)
      pure ⟨true, some isValid, some snc.1⟩
    | none => pure mcpNotFound

/-- `detectTaskMasterMCPServer` with its catch: a thrown error is reported
as not found. -/
def detectTaskMasterMCP (configData : JVal) : MCPResult :=
  match detectCoreE configData with
  | .ok r => r
  | .error _ => mcpNotFound

/-!
Specification-side detector, written from the words of claim C10, to be
compared with `detectTaskMasterMCP`.
-/

/-- The claim's match condition: name equal to `task-master-ai`, or name
containing `task-master`, or a command string containing `task-master`. -/
def specMatch (name : String) (config : JVal) : Bool :=
  name == "task-master-ai" || strContains name "task-master" ||
    (match jsGet config "command" with
     | .str s2 => strContains s2 "task-master"
     | _ => false)

def specFirstMatch : List (String × JVal) → Option (String × JVal)
  | [] => none
  | (n, c) :: rest => if specMatch n c then some (n, c) else specFirstMatch rest

/-- The user- or project-scoped server map of a configuration record. -/
def serversOf (v : JVal) : List (String × JVal) :=
  let ms := jsGet v "mcpServers"
  if ms.truthy && isObjectLike ms then jsEntries ms else []

def specProjFirst : List (String × JVal) → Option (String × JVal)
  | [] => none
  | (_, pc) :: rest =>
    match specFirstMatch (serversOf pc) with
    | some nc => some nc
    | none => specProjFirst rest

/-- The claim's validity condition on the matched entry: a truthy (non-empty)
command or url field. -/
def specConfigured (config : JVal) : Bool :=
  (jsGet config "command").truthy || (jsGet config "url").truthy

/-- The detector as claim C10 describes it: the user-scoped map is searched
first and takes precedence, then each project's map in order; the matched
entry is configured exactly when it has a truthy command or url. -/
def detectSpec (configData : JVal) : MCPResult :=
  if !configData.truthy then mcpNotFound
  else
    match specFirstMatch (serversOf configData) with
    | some nc => ⟨true, some (specConfigured nc.2), some "user"⟩
    | none =>
      let pr := jsGet configData "projects"
      if pr.truthy then
        match specProjFirst (jsEntries pr) with
        | some nc => ⟨true, some (specConfigured nc.2), some "local"⟩
        | none => mcpNotFound
      else mcpNotFound

/-- A server entry the detector processes without throwing: its config is an
object whose `command`, if present, is a string or null. -/
def wfServerEntry (nc : String × JVal) : Bool :=
  nc.2.isObjB &&
    (match jsGet nc.2 "command" with
     | .str _ => true
     | .undefined => true
     | .null => true
     | _ => false)

/-- Configurations on which the detector cannot throw: all user-scoped
entries well formed, and, when a project scan would run, every project value
non-nullish with well-formed entries. -/
def wfMCPConfig (configData : JVal) : Bool :=
  (serversOf configData).all wfServerEntry &&
  (let pr := jsGet configData "projects"
   !pr.truthy ||
     (jsEntries pr).all (fun p => !p.2.isNullish && (serversOf p.2).all wfServerEntry))

/-!
## PRD template placeholders

Placeholder scan (TemplateSelector in NextTaskBanner.jsx):

    const placeholders = template.content.match(/\[([^\]]+)\]/g) || [];
    const uniquePlaceholders = [...new Set(placeholders.map(p => p.slice(1, -1)))];

Template application (the apply-template handler); note the doubled
backslashes in the escape step, which appear verbatim in the source:

    for (const [key, value] of Object.entries(customizations)) {
        const placeholder = "[" + key + "]";
        content = content.replace(
            new RegExp(placeholder.replace(/[.*+?^${}()|[\\]\\\\]/g, '\\\\$&'), 'g'),
            value);
    }

The escape regex therefore matches one character of the class
.*+?^$()|[{}\ followed by two literal backslashes and a literal `]` — for
ordinary keys without backslashes it matches nothing, so the placeholder
`[key]` reaches `new RegExp` unescaped and is parsed as a character class
matching any single character of the key.
-/

/-- The leftmost regex match of `\[([^\]]+)\]` starting at a given `[`:
after the bracket a match takes the maximal nonempty run of non-`]`
characters followed by `]`, and scanning resumes after it; without a match
the engine retries from the next character.  Returns the stripped names
(the `slice(1, -1)` of the raw matches) in match order.  The structural
fuel argument makes the definition primitive recursive; the text length is
always enough fuel, since every recursive call consumes at least one
character. -/
def scanRawF : Nat → List Char → List String
  | 0, _ => []
  | _, [] => []
  | fuel + 1, c :: cs =>
    if c = '[' then
      match cs.drop (cs.takeWhile (fun d => !(d = ']'))).length with
      | d :: rest =>
        if d = ']' then
          if (cs.takeWhile (fun d => !(d = ']'))).isEmpty then scanRawF fuel cs
          else String.mk (cs.takeWhile (fun d => !(d = ']'))) :: scanRawF fuel rest
        else scanRawF fuel cs
      | [] => scanRawF fuel cs
    else scanRawF fuel cs

def scanRaw (cs : List Char) : List String := scanRawF cs.length cs

/-- `[...new Set(l)]`: keep the first occurrence of each element, in order
(fuel as above). -/
def dedupeFirstF : Nat → List String → List String
  | 0, _ => []
  | _, [] => []
  | fuel + 1, x :: xs => x :: dedupeFirstF fuel (xs.filter (fun y => !(y = x)))

def dedupeFirst (l : List String) : List String := dedupeFirstF l.length l

/-- The placeholder scan of `handleSelectTemplate`. -/
def scanPlaceholders (s : String) : List String := dedupeFirst (scanRaw s.toList)

/-- The character class of the corrupted escape regex
`[.*+?^${}()|[\\]` (see the module comment above). -/
def escClassChars : List Char :=
  ['.', '*', '+', '?', '^', '$', '\x7b', '\x7d', '(', ')', '|', '[', '\\']

/-- `placeholder.replace(/[.*+?^${}()|[\\]\\\\]/g, '\\\\$&')` as the source
has it: a match is a class character followed by `\\]`, replaced by two
backslashes plus the match.  Keys without backslashes are left unchanged
(fuel as above). -/
def escapePHF : Nat → List Char → List Char
  | 0, l => l
  | _, [] => []
  | fuel + 1, c :: cs =>
    if escClassChars.contains c then
      match cs with
      | '\\' :: '\\' :: ']' :: rest =>
        '\\' :: '\\' :: c :: '\\' :: '\\' :: ']' :: escapePHF fuel rest
      | _ => c :: escapePHF fuel cs
    else c :: escapePHF fuel cs

def escapePH (l : List Char) : List Char := escapePHF l.length l

/-- The body of a simple character-class pattern `[body]`. -/
def classBody (l : List Char) : List Char := (l.drop 1).dropLast

/-- `content.replace(new RegExp("[" ++ body ++ "]", "g"), value)` for a
simple character class: every single character of the class is replaced by
the value.  (Replacement-pattern `$` sequences in the value are not
modelled; the inputs below use `$`-free values.) -/
def replaceCharClass (cls value : List Char) : List Char → List Char
  | [] => []
  | c :: cs =>
    if cls.contains c then value ++ replaceCharClass cls value cs
    else c :: replaceCharClass cls value cs

/-- The customization loop of the apply-template handler, for keys without
regex metacharacters or backslashes (as the shipped templates use): the
escape step leaves `[key]` unchanged and `new RegExp` parses it as the
character class of the key's characters. -/
def applyTemplateCustomizations (content : String) (cs : List (String × String)) : String :=
  cs.foldl (fun acc kv =>
    String.mk (replaceCharClass
      (classBody (escapePH ("[" ++ kv.1 ++ "]").toList))
      kv.2.toList acc.toList)) content

/-! ## Theorems -/

/-! ### Shared helper lemmas -/

@[simp] lemma exceptOkBind {α β : Type} (a : α) (f : α → Except Unit β) :
    (Except.ok a >>= f) = f a := rfl

@[simp] lemma exceptPureEq {α : Type} (a : α) :
    (pure a : Except Unit α) = Except.ok a := rfl

lemma tasksArrOk_elim : ∀ {v : JVal}, tasksArrOk v = true →
    ∃ xs, v = JVal.arr xs ∧ ∀ x ∈ xs, x.isNullish = false := by
  intro v h
  cases v with
  | arr xs =>
    refine ⟨xs, rfl, ?_⟩
    intro x hx
    have := List.all_eq_true.mp h x hx
    simpa using this
  | _ => simp [tasksArrOk] at h

lemma mapE_ok_of_nonNullish (now : String) :
    ∀ xs : List JVal, (∀ x ∈ xs, x.isNullish = false) →
    mapE (transformTask now) xs = .ok (xs.map (transformBody now)) := by
  intro xs
  induction xs with
  | nil => exact fun _ => rfl
  | cons x xs ih =>
    intro h
    have hx : x.isNullish = false := h x (List.mem_cons_self x xs)
    simp [mapE, transformTask, hx, ih (fun a ha => h a (List.mem_cons_of_mem _ ha))]

lemma findFirstTag_eq_scanFirst (j : JVal) :
    ∀ ks, scanNoThrow j ks = true → findFirstTag j ks = .ok (scanFirst j ks) := by
  intro ks
  induction ks with
  | nil => exact fun _ => rfl
  | cons k ks ih =>
    intro h
    by_cases hn : (jsGet j k).isNullish = true
    · simp [scanNoThrow, hn] at h
    · simp only [Bool.not_eq_true] at hn
      cases hf : ((jsGet (jsGet j k) "tasks").truthy && (jsGet (jsGet j k) "tasks").isArrB) with
      | true => simp [findFirstTag, scanFirst, hn, hf]
      | false =>
        have h' : scanNoThrow j ks = true := by
          simpa [scanNoThrow, hn, hf] using h
        simp [findFirstTag, scanFirst, hn, hf, ih h']

lemma resolveTasks_eq_amended {j : JVal} (h : resolveSafe j = true) :
    resolveTasks j = .ok (resolveTasksAmended j) := by
  by_cases hnull : j.isNullish = true
  · rw [resolveSafe] at h; simp [hnull] at h
  · simp only [Bool.not_eq_true] at hnull
    cases ha : j.isArrB with
    | true => simp [resolveTasks, resolveTasksAmended, ha]
    | false =>
      cases ht : (jsGet j "tasks").truthy with
      | true => simp [resolveTasks, resolveTasksAmended, jsGetE, hnull, ha, ht]
      | false =>
        cases hm : ((jsGet j "master").truthy && (jsGet (jsGet j "master") "tasks").truthy) with
        | true =>
          have hm' : (jsGet j "master").truthy = true ∧
              (jsGet (jsGet j "master") "tasks").truthy = true := by simpa using hm
          simp [resolveTasks, resolveTasksAmended, jsGetE, hnull, ha, ht, hm'.1, hm'.2]
        | false =>
          have hscan : scanNoThrow j (jsKeys j) = true := by
            rw [resolveSafe] at h
            simpa [hnull, ha, ht, hm] using h
          have hm' : ¬((jsGet j "master").truthy = true ∧
              (jsGet (jsGet j "master") "tasks").truthy = true) := by
            rw [← Bool.and_eq_true]; simp [hm]
          rw [resolveTasks, resolveTasksAmended]
          simp only [ha, Bool.false_eq_true, if_false, jsGetE, hnull,
                     exceptOkBind, ht, findFirstTag_eq_scanFirst j (jsKeys j) hscan,
                     hm', if_neg hm']
          cases hsf : scanFirst j (jsKeys j) with
          | none => simp [hm]
          | some k => cases hk : (k == "") with
            | true => simp [hm, hk]
            | false => simp [hm, hk]


/-- C1: for every boolean combination, the reconciled status is exactly the
section 4.1 table value at `(hasTaskmaster AND hasEssentialFiles,
hasMCPServer AND isConfigured)`; in particular a project whose folder exists
but whose tasks file is unreadable is never `fully-configured` or
`taskmaster-only`. -/
theorem reconcile_truth_table :
    (∀ ht he hm ic : Bool, reconcile ht he hm ic = statusTable (ht && he) (hm && ic)) ∧
    (∀ hm ic : Bool,
      reconcile true false hm ic ≠ "fully-configured" ∧
      reconcile true false hm ic ≠ "taskmaster-only") := by
  constructor
  · intro ht he hm ic
    cases ht <;> cases he <;> cases hm <;> cases ic <;> rfl
  · intro hm ic
    cases hm <;> cases ic <;> exact ⟨by decide, by decide⟩


lemma scanSafe_elim (j : JVal) : ∀ ks, scanSafe j ks = true →
    scanNoThrow j ks = true ∧
    (∀ k, scanFirst j ks = some k →
      (k == "") = true ∨ tasksArrOk (jsGet (jsGet j k) "tasks") = true) := by
  intro ks
  induction ks with
  | nil => exact fun _ => ⟨rfl, by intro k hk; cases hk⟩
  | cons k ks ih =>
    intro h
    by_cases hn : (jsGet j k).isNullish = true
    · simp [scanSafe, hn] at h
    · simp only [Bool.not_eq_true] at hn
      cases hf : ((jsGet (jsGet j k) "tasks").truthy && (jsGet (jsGet j k) "tasks").isArrB) with
      | true =>
        have hfound : (k == "") = true ∨ tasksArrOk (jsGet (jsGet j k) "tasks") = true := by
          have := h
          rw [scanSafe] at this
          simp only [hn, Bool.false_eq_true, if_false, hf, if_true] at this
          simpa using this
        refine ⟨by simp [scanNoThrow, hn, hf], ?_⟩
        intro k2 hk2
        rw [scanFirst] at hk2
        simp only [hf, if_true] at hk2
        cases hk2
        exact hfound
      | false =>
        have h' : scanSafe j ks = true := by
          have := h
          rw [scanSafe] at this
          simpa [hn, hf] using this
        obtain ⟨h1, h2⟩ := ih h'
        refine ⟨by simp [scanNoThrow, hn, hf, h1], ?_⟩
        intro k2 hk2
        rw [scanFirst] at hk2
        simp only [hf, Bool.false_eq_true, if_false] at hk2
        exact h2 k2 hk2

lemma safeInput_resolve {j : JVal} (h : safeInput j = true) :
    resolveSafe j = true ∧ tasksArrOk (resolveTasksAmended j).1 = true := by
  by_cases hnull : j.isNullish = true
  · rw [safeInput] at h; simp [hnull] at h
  · simp only [Bool.not_eq_true] at hnull
    cases ha : j.isArrB with
    | true =>
      have ht : tasksArrOk j = true := by
        rw [safeInput] at h; simpa [hnull, ha] using h
      exact ⟨by simp [resolveSafe, hnull, ha], by simp [resolveTasksAmended, ha, ht]⟩
    | false =>
      cases ht : (jsGet j "tasks").truthy with
      | true =>
        have hok : tasksArrOk (jsGet j "tasks") = true := by
          rw [safeInput] at h; simpa [hnull, ha, ht] using h
        exact ⟨by simp [resolveSafe, hnull, ha, ht],
               by simp [resolveTasksAmended, ha, ht, hok]⟩
      | false =>
        cases hm : ((jsGet j "master").truthy && (jsGet (jsGet j "master") "tasks").truthy) with
        | true =>
          have hm' : (jsGet j "master").truthy = true ∧
              (jsGet (jsGet j "master") "tasks").truthy = true := by simpa using hm
          have hok : tasksArrOk (jsGet (jsGet j "master") "tasks") = true := by
            rw [safeInput] at h
            simpa [hnull, ha, ht, hm'.1, hm'.2] using h
          exact ⟨by simp [resolveSafe, hnull, ha, ht, hm],
                 by simp [resolveTasksAmended, ha, ht, hm'.1, hm'.2, hok]⟩
        | false =>
          have hscan : scanSafe j (jsKeys j) = true := by
            rw [safeInput] at h
            simpa [hnull, ha, ht, hm] using h
          obtain ⟨h1, h2⟩ := scanSafe_elim j (jsKeys j) hscan
          refine ⟨by simp [resolveSafe, hnull, ha, ht, hm, h1], ?_⟩
          rw [resolveTasksAmended]
          simp only [ha, Bool.false_eq_true, if_false, ht, hm]
          cases hsf : scanFirst j (jsKeys j) with
          | none => simp [tasksArrOk]
          | some k =>
            cases hk : (k == "") with
            | true => simp [hk, tasksArrOk]
            | false =>
              have := h2 k hsf
              rw [hk] at this
              simp only [Bool.false_eq_true, false_or] at this
              simp [hk, this]

/-- C3 (amended): the normalizer returns a valid result on every safe input,
and on the empty object and the empty array it returns the empty-but-valid
result. -/
theorem normalizer_total_on_safe_inputs :
    (∀ (now : String) (j : JVal), safeInput j = true →
      ∃ r, normalizeTasks now j = .ok r) ∧
    (∀ now : String, normalizeTasks now (.obj []) =
      .ok ⟨[], "master",
        [("pending", 0), ("in-progress", 0), ("done", 0),
         ("review", 0), ("deferred", 0), ("cancelled", 0)]⟩) ∧
    (∀ now : String, normalizeTasks now (.arr []) =
      .ok ⟨[], "master",
        [("pending", 0), ("in-progress", 0), ("done", 0),
         ("review", 0), ("deferred", 0), ("cancelled", 0)]⟩) := by
  refine ⟨?_, fun _ => rfl, fun _ => rfl⟩
  intro now j h
  obtain ⟨hrs, hok⟩ := safeInput_resolve h
  obtain ⟨xs, hxs, hnn⟩ := tasksArrOk_elim hok
  refine ⟨⟨xs.map (transformBody now), (resolveTasksAmended j).2,
          sixBuckets (xs.map (transformBody now))⟩, ?_⟩
  rw [normalizeTasks, resolveTasks_eq_amended hrs, exceptOkBind, hxs]
  simp only [mapE_ok_of_nonNullish now xs hnn, exceptOkBind, exceptPureEq]


/-- C3 counterexample: the normalizer is not total — on the parsed JSON
input with a single tag whose value is null, the rule-4 scan dereferences
`tasksData["a"].tasks` and throws, so the handler reports a failure instead
of returning an empty-but-valid result. -/
theorem normalizer_throw_counterexample :
    normalizeTasks "T0" (.obj [("a", JVal.null)]) = .error () := rfl

/-- Witness for the amended C3 theorem at the concrete input with one
well-formed task. -/
theorem normalizer_total_witness :
    safeInput (.obj [("tasks", .arr [.obj [("id", .num 1)]])]) = true ∧
    ∃ r, normalizeTasks "T0" (.obj [("tasks", .arr [.obj [("id", .num 1)]])]) = .ok r :=
  ⟨rfl, normalizer_total_on_safe_inputs.1 "T0" _ rfl⟩

/-- C2 counterexample: on the input with a truthy non-list `tasks` field
and a `master` tag with an empty task list, the claimed rule order picks
rule 3 (the empty list), but the source code picks rule 2 and binds the
non-list object as the task list. -/
theorem resolution_rule_two_counterexample :
    resolveTasks (.obj [("tasks", .obj []), ("master", .obj [("tasks", .arr [])])])
      = .ok (.obj [], "master") ∧
    resolveTasksClaim (.obj [("tasks", .obj []), ("master", .obj [("tasks", .arr [])])])
      = (.arr [], "master") ∧
    ¬ (JVal.obj [] = JVal.arr []) :=
  ⟨rfl, rfl, fun h => JVal.noConfusion h⟩

/-- C2 (amended): shape resolution tries the rules in the stated fixed
order, except that rule 2 fires on any truthy `tasks` field (even a
non-list), rule 3 on a truthy `master` with truthy `master.tasks`, and a
rule-4 match on the empty-string key is ignored; on inputs whose rule-4
scan would dereference a nullish tag value the resolution throws instead.
In particular, for the input with both a non-master tag holding tasks and a
`master` tag holding an empty task list, rule 3 wins: the tag is `master`
and the task list is empty. -/
theorem resolution_order_amended :
    (∀ j : JVal, resolveSafe j = true → resolveTasks j = .ok (resolveTasksAmended j)) ∧
    resolveTasks (.obj [("featureX", .obj [("tasks", .arr [.obj [("id", .num 2)]])]),
                        ("master", .obj [("tasks", .arr [])])])
      = .ok (.arr [], "master") :=
  ⟨fun _ h => resolveTasks_eq_amended h, rfl⟩

/-- Witness for the amended C2 theorem at a concrete rule-4 input. -/
theorem resolution_order_amended_witness :
    resolveSafe (.obj [("onlyTag", .obj [("tasks", .arr [.obj [("id", .num 5)]])])]) = true ∧
    resolveTasks (.obj [("onlyTag", .obj [("tasks", .arr [.obj [("id", .num 5)]])])])
      = .ok (resolveTasksAmended
            (.obj [("onlyTag", .obj [("tasks", .arr [.obj [("id", .num 5)]])])])) :=
  ⟨rfl, resolution_order_amended.1 _ rfl⟩

-- C4 machinery
lemma jsGet_eq_undef_of_no_key {v : JVal} {k : String} (hk : hasKeyB v k = false)
    (hn : decIndex? k = none) : jsGet v k = .undefined := by
  cases v with
  | obj fs =>
    rw [jsGet]
    have hfind : fs.find? (fun p => p.1 == k) = none := by
      rw [List.find?_eq_none]
      intro p hp
      rw [hasKeyB] at hk
      exact List.any_eq_false.mp hk p hp
    rw [hfind]
  | arr xs => simp [jsGet, hn]
  | str s => simp [jsGet, hn]
  | undefined => rfl
  | null => rfl
  | bool b => rfl
  | num n => rfl

lemma jsOr_of_truthy {a : JVal} (h : a.truthy = true) (b : JVal) : jsOr a b = a := by
  simp [jsOr, h]

/-- C4 (amended): every output task has all documented fields present; a
field is defaulted whenever the source value is falsy (absent, null, empty
string, 0 or false), not only when the source record omits it, and truthy
source values are passed through unchanged.  The documented defaults are
confirmed: title `Untitled Task`, empty strings for description, details
and testStrategy, status `pending`, priority `medium`, and empty lists for
dependencies and subtasks. -/
theorem transform_field_defaults :
    ∀ (now : String) (task : JVal), task.isNullish = false →
    ∃ out, transformTask now task = .ok out ∧
      jsGet out "id" = jsGet task "id" ∧
      jsGet out "title" = jsOr (jsGet task "title") (.str "Untitled Task") ∧
      jsGet out "description" = jsOr (jsGet task "description") (.str "") ∧
      jsGet out "status" = jsOr (jsGet task "status") (.str "pending") ∧
      jsGet out "priority" = jsOr (jsGet task "priority") (.str "medium") ∧
      jsGet out "dependencies" = jsOr (jsGet task "dependencies") (.arr []) ∧
      jsGet out "details" = jsOr (jsGet task "details") (.str "") ∧
      jsGet out "testStrategy" =
        jsOr (jsGet task "testStrategy") (jsOr (jsGet task "test_strategy") (.str "")) ∧
      jsGet out "subtasks" = jsOr (jsGet task "subtasks") (.arr []) ∧
      (hasKeyB task "title" = false → jsGet out "title" = .str "Untitled Task") ∧
      (hasKeyB task "description" = false → jsGet out "description" = .str "") ∧
      (hasKeyB task "status" = false → jsGet out "status" = .str "pending") ∧
      (hasKeyB task "priority" = false → jsGet out "priority" = .str "medium") ∧
      (hasKeyB task "dependencies" = false → jsGet out "dependencies" = .arr []) ∧
      (hasKeyB task "details" = false → jsGet out "details" = .str "") ∧
      (hasKeyB task "testStrategy" = false → hasKeyB task "test_strategy" = false →
        jsGet out "testStrategy" = .str "") ∧
      (hasKeyB task "subtasks" = false → jsGet out "subtasks" = .arr []) ∧
      ((jsGet task "title").truthy = true → jsGet out "title" = jsGet task "title") ∧
      ((jsGet task "description").truthy = true → jsGet out "description" = jsGet task "description") ∧
      ((jsGet task "status").truthy = true → jsGet out "status" = jsGet task "status") ∧
      ((jsGet task "priority").truthy = true → jsGet out "priority" = jsGet task "priority") ∧
      ((jsGet task "dependencies").truthy = true → jsGet out "dependencies" = jsGet task "dependencies") ∧
      ((jsGet task "details").truthy = true → jsGet out "details" = jsGet task "details") ∧
      ((jsGet task "testStrategy").truthy = true → jsGet out "testStrategy" = jsGet task "testStrategy") ∧
      ((jsGet task "subtasks").truthy = true → jsGet out "subtasks" = jsGet task "subtasks") := by
  intro now task hnull
  refine ⟨transformBody now task, by simp [transformTask, hnull], rfl, rfl, rfl, rfl, rfl, rfl,
    rfl, rfl, rfl, ?_, ?_, ?_, ?_, ?_, ?_, ?_, ?_, ?_, ?_, ?_, ?_, ?_, ?_, ?_, ?_⟩
  · intro hk
    have h1 : jsGet (transformBody now task) "title"
        = jsOr (jsGet task "title") (.str "Untitled Task") := rfl
    rw [h1, jsGet_eq_undef_of_no_key hk (by decide)]
    rfl
  · intro hk
    have h1 : jsGet (transformBody now task) "description"
        = jsOr (jsGet task "description") (.str "") := rfl
    rw [h1, jsGet_eq_undef_of_no_key hk (by decide)]
    rfl
  · intro hk
    have h1 : jsGet (transformBody now task) "status"
        = jsOr (jsGet task "status") (.str "pending") := rfl
    rw [h1, jsGet_eq_undef_of_no_key hk (by decide)]
    rfl
  · intro hk
    have h1 : jsGet (transformBody now task) "priority"
        = jsOr (jsGet task "priority") (.str "medium") := rfl
    rw [h1, jsGet_eq_undef_of_no_key hk (by decide)]
    rfl
  · intro hk
    have h1 : jsGet (transformBody now task) "dependencies"
        = jsOr (jsGet task "dependencies") (.arr []) := rfl
    rw [h1, jsGet_eq_undef_of_no_key hk (by decide)]
    rfl
  · intro hk
    have h1 : jsGet (transformBody now task) "details"
        = jsOr (jsGet task "details") (.str "") := rfl
    rw [h1, jsGet_eq_undef_of_no_key hk (by decide)]
    rfl
  · intro hk1 hk2
    have h1 : jsGet (transformBody now task) "testStrategy"
        = jsOr (jsGet task "testStrategy") (jsOr (jsGet task "test_strategy") (.str "")) := rfl
    rw [h1, jsGet_eq_undef_of_no_key hk1 (by decide), jsGet_eq_undef_of_no_key hk2 (by decide)]
    rfl
  · intro hk
    have h1 : jsGet (transformBody now task) "subtasks"
        = jsOr (jsGet task "subtasks") (.arr []) := rfl
    rw [h1, jsGet_eq_undef_of_no_key hk (by decide)]
    rfl
  · intro ht
    exact (rfl : jsGet (transformBody now task) "title" = _).trans (jsOr_of_truthy ht _)
  · intro ht
    exact (rfl : jsGet (transformBody now task) "description" = _).trans (jsOr_of_truthy ht _)
  · intro ht
    exact (rfl : jsGet (transformBody now task) "status" = _).trans (jsOr_of_truthy ht _)
  · intro ht
    exact (rfl : jsGet (transformBody now task) "priority" = _).trans (jsOr_of_truthy ht _)
  · intro ht
    exact (rfl : jsGet (transformBody now task) "dependencies" = _).trans (jsOr_of_truthy ht _)
  · intro ht
    exact (rfl : jsGet (transformBody now task) "details" = _).trans (jsOr_of_truthy ht _)
  · intro ht
    exact (rfl : jsGet (transformBody now task) "testStrategy" = _).trans (jsOr_of_truthy ht _)
  · intro ht
    exact (rfl : jsGet (transformBody now task) "subtasks" = _).trans (jsOr_of_truthy ht _)

/-- Witness for the amended C4 theorem at a task record carrying only an
id. -/
theorem transform_field_defaults_witness :
    (JVal.obj [("id", .num 1)]).isNullish = false ∧
    ∃ out, transformTask "T0" (.obj [("id", .num 1)]) = .ok out ∧
      jsGet out "title" = .str "Untitled Task" ∧
      jsGet out "status" = .str "pending" ∧
      jsGet out "priority" = .str "medium" ∧
      jsGet out "dependencies" = .arr [] ∧
      jsGet out "subtasks" = .arr [] := by
  refine ⟨rfl, ?_⟩
  obtain ⟨out, h1, -, -, -, -, -, -, -, -, -, h2, -, h3, h4, h5, -, -, h6, -⟩ :=
    transform_field_defaults "T0" (.obj [("id", .num 1)]) rfl
  exact ⟨out, h1, h2 rfl, h3 rfl, h4 rfl, h5 rfl, h6 rfl⟩

/-- C4 counterexample: a task whose `title` field is present but is the
empty string is transformed to title `Untitled Task`; the present value is
not passed through unchanged. -/
theorem transform_empty_title_counterexample :
    hasKeyB (.obj [("id", .num 1), ("title", .str "")]) "title" = true ∧
    jsGet (.obj [("id", .num 1), ("title", .str "")]) "title" = .str "" ∧
    transformTask "T0" (.obj [("id", .num 1), ("title", .str "")]) =
      .ok (.obj [("id", .num 1), ("title", .str "Untitled Task"), ("description", .str ""),
        ("status", .str "pending"), ("priority", .str "medium"), ("dependencies", .arr []),
        ("createdAt", .str "T0"), ("updatedAt", .str "T0"), ("details", .str ""),
        ("testStrategy", .str ""), ("subtasks", .arr [])]) ∧
    ¬ (("Untitled Task" : String) = "") :=
  ⟨rfl, rfl, rfl, by decide⟩


@[simp] lemma exceptErrorBind {α β : Type} (f : α → Except Unit β) :
    ((Except.error () : Except Unit α) >>= f) = Except.error () := rfl

lemma jsOr_time {a b : JVal} (h : (a.truthy || b.truthy) = true) (s1 s2 : String) :
    jsOr a (jsOr b (.str s1)) = jsOr a (jsOr b (.str s2)) := by
  cases ha : a.truthy with
  | true => simp [jsOr, ha]
  | false =>
    have hb : b.truthy = true := by simpa [ha] using h
    simp [jsOr, ha, hb]

lemma transformTask_time_congr (t1 t2 : String) {x : JVal}
    (h : x.isNullish = true ∨ timesOk x = true) :
    transformTask t1 x = transformTask t2 x := by
  cases h with
  | inl h => simp [transformTask, h]
  | inr h =>
    obtain ⟨hc, hu⟩ : ((jsGet x "createdAt").truthy || (jsGet x "created").truthy) = true ∧
        ((jsGet x "updatedAt").truthy || (jsGet x "updated").truthy) = true := by
      simpa [timesOk] using h
    rw [transformTask, transformTask, transformBody, transformBody,
        jsOr_time hc t1 t2, jsOr_time hu t1 t2]

lemma mapE_time_congr (t1 t2 : String) :
    ∀ xs : List JVal, (∀ x ∈ xs, x.isNullish = true ∨ timesOk x = true) →
    mapE (transformTask t1) xs = mapE (transformTask t2) xs := by
  intro xs
  induction xs with
  | nil => exact fun _ => rfl
  | cons x xs ih =>
    intro h
    rw [mapE, mapE, transformTask_time_congr t1 t2 (h x (List.mem_cons_self x xs)),
        ih (fun a ha => h a (List.mem_cons_of_mem _ ha))]

/-- C7 (amended): the reconciler is a pure function of its four booleans
(its embedding takes no other input), and the normalizer is deterministic
given the clock reading: its output is independent of the clock exactly
when every resolved task record either throws or carries truthy
createdAt/created and updatedAt/updated fields.  Stated here as: two runs
with different clock readings agree on every `clockFree` input. -/
theorem normalizer_clock_free_amended :
    ∀ (t1 t2 : String) (j : JVal), clockFree j = true →
      normalizeTasks t1 j = normalizeTasks t2 j := by
  intro t1 t2 j h
  rw [clockFree] at h
  rw [normalizeTasks, normalizeTasks]
  cases hr : resolveTasks j with
  | error e => cases e; rfl
  | ok p =>
    rw [hr] at h
    obtain ⟨v, tag⟩ := p
    cases v with
    | arr xs =>
      have hall : ∀ x ∈ xs, x.isNullish = true ∨ timesOk x = true := by
        intro x hx
        have := List.all_eq_true.mp h x hx
        simpa using this
      simp only [exceptOkBind, mapE_time_congr t1 t2 xs hall]
    | undefined => rfl
    | null => rfl
    | bool b => rfl
    | num n => rfl
    | str s => rfl
    | obj fs => rfl

/-- C7 counterexample: the normalizer is not a pure function of the task
file alone — a task without timestamps receives `new Date().toISOString()`,
so two invocations with identical input but different clock readings
produce different outputs. -/
theorem normalizer_clock_counterexample :
    normalizeTasks "2020-01-01T00:00:00.000Z" (.obj [("tasks", .arr [.obj [("id", .num 1)]])]) ≠
    normalizeTasks "2020-01-02T00:00:00.000Z" (.obj [("tasks", .arr [.obj [("id", .num 1)]])]) :=
  fun h =>
    absurd (congrArg probeCreatedAt h :
        ("2020-01-01T00:00:00.000Z" : String) = "2020-01-02T00:00:00.000Z")
      (by decide)

/-- Witness for the amended C7 theorem at a task carrying its own
timestamps. -/
theorem normalizer_clock_free_witness :
    clockFree (.obj [("tasks", .arr [.obj [("id", .num 1), ("createdAt", .str "C"),
        ("updatedAt", .str "U")]])]) = true ∧
    normalizeTasks "A" (.obj [("tasks", .arr [.obj [("id", .num 1), ("createdAt", .str "C"),
        ("updatedAt", .str "U")]])]) =
    normalizeTasks "B" (.obj [("tasks", .arr [.obj [("id", .num 1), ("createdAt", .str "C"),
        ("updatedAt", .str "U")]])]) :=
  ⟨rfl, normalizer_clock_free_amended "A" "B" _ rfl⟩


lemma toNum_jsIncr (v : JVal) : toNum (jsIncr v) = toNum v + 1 := rfl

lemma beq_false_symm {a b : String} (h : (a == b) = false) : (b == a) = false := by
  rw [beq_eq_false_iff_ne] at h ⊢
  exact fun e => h e.symm

lemma objGet_objSet_same (k : String) (v : JVal) :
    ∀ fs, objGet (objSet fs k v) k = v := by
  intro fs
  induction fs with
  | nil => simp [objSet, objGet]
  | cons p fs ih =>
    obtain ⟨k2, v2⟩ := p
    by_cases h : (k2 == k) = true
    · simp [objSet, objGet, h]
    · simp only [Bool.not_eq_true] at h
      simpa [objSet, objGet, h] using ih

lemma objGet_objSet_ne {s k : String} (h : (s == k) = false) (v : JVal) :
    ∀ fs, objGet (objSet fs k v) s = objGet fs s := by
  intro fs
  have hks : (k == s) = false := beq_false_symm h
  induction fs with
  | nil => simp [objSet, objGet, hks]
  | cons p fs ih =>
    obtain ⟨k2, v2⟩ := p
    by_cases h2 : (k2 == k) = true
    · have hk2 : k2 = k := by simpa using h2
      subst hk2
      simp [objSet, objGet, hks]
    · simp only [Bool.not_eq_true] at h2
      by_cases h3 : (k2 == s) = true
      · simp [objSet, objGet, h2, h3]
      · simp only [Bool.not_eq_true] at h3
        simpa [objSet, objGet, h2, h3] using ih

lemma subStep_pres {sub : JVal} (hs : sub.isNullish = false) (acc : List (String × JVal)) :
    ∃ acc2, subStep acc sub = .ok acc2 ∧
      ∀ s : String, (s == "subtotalTasks") = false → (s == "subtasks") = false →
        objGet acc2 s = objGet acc s := by
  rw [subStep]
  simp only [hs, Bool.false_eq_true, if_false]
  refine ⟨_, rfl, ?_⟩
  intro s h1 h2
  rw [objGet_objSet_ne h2, objGet_objSet_ne h2, objGet_objSet_ne h1]

lemma subFold_pres : ∀ (subs : List JVal) (acc : List (String × JVal)),
    subs.all (fun x => !x.isNullish) = true →
    ∃ acc2, subFold acc subs = .ok acc2 ∧
      ∀ s : String, (s == "subtotalTasks") = false → (s == "subtasks") = false →
        objGet acc2 s = objGet acc s := by
  intro subs
  induction subs with
  | nil => exact fun acc _ => ⟨acc, rfl, fun _ _ _ => rfl⟩
  | cons sub subs ih =>
    intro acc h
    have hs : sub.isNullish = false := by
      have := List.all_eq_true.mp h sub (List.mem_cons_self _ _)
      simpa using this
    have h' : subs.all (fun x => !x.isNullish) = true := by
      rw [List.all_eq_true] at h ⊢
      exact fun x hx => h x (List.mem_cons_of_mem _ hx)
    obtain ⟨a1, ha1, hp1⟩ := subStep_pres hs acc
    obtain ⟨a2, ha2, hp2⟩ := ih a1 h'
    refine ⟨a2, ?_, ?_⟩
    · rw [subFold, ha1]
      simpa using ha2
    · intro s h1 h2
      rw [hp2 s h1 h2, hp1 s h1 h2]

lemma wfStatsTask_parts {t : JVal} (hw : wfStatsTask t = true) :
    t.isNullish = false ∧ statusPrim t = true ∧
    (statusKeyOf t == "total") = false ∧ (statusKeyOf t == "subtotalTasks") = false ∧
    (statusKeyOf t == "subtasks") = false ∧
    ((jsGet t "subtasks").truthy = false ∨
      ∃ subs, jsGet t "subtasks" = .arr subs ∧ subs.all (fun x => !x.isNullish) = true) := by
  rw [wfStatsTask] at hw
  simp only [Bool.and_eq_true, Bool.or_eq_true, Bool.not_eq_true'] at hw
  obtain ⟨⟨⟨⟨⟨h1, h2⟩, h3⟩, h4⟩, h5⟩, h6⟩ := hw
  refine ⟨h1, h2, h3, h4, h5, ?_⟩
  rcases h6 with h6 | h6
  · exact Or.inl h6
  · cases hst : jsGet t "subtasks" with
    | arr subs =>
      rw [hst] at h6
      exact Or.inr ⟨subs, rfl, h6⟩
    | undefined => rw [hst] at h6; cases h6
    | null => rw [hst] at h6; cases h6
    | bool b => rw [hst] at h6; cases h6
    | num n => rw [hst] at h6; cases h6
    | str s2 => rw [hst] at h6; cases h6
    | obj fs => rw [hst] at h6; cases h6

lemma statsStep_spec {t : JVal} (hw : wfStatsTask t = true) (acc : List (String × JVal)) :
    ∃ acc2, statsStep acc t = .ok acc2 ∧
      (∀ s : String, (s == "total") = false → (s == "subtotalTasks") = false →
        (s == "subtasks") = false →
        toNum (objGet acc2 s) =
          toNum (objGet acc s) + (if (statusKeyOf t == s) = true then 1 else 0)) ∧
      toNum (objGet acc2 "total") = toNum (objGet acc "total") + 1 := by
  obtain ⟨hnn, hsp, hk1, hk2, hk3, hsub⟩ := wfStatsTask_parts hw
  have htk : (("total" : String) == statusKeyOf t) = false := beq_false_symm hk1
  rw [statsStep]
  simp only [hnn, Bool.false_eq_true, if_false]
  have hpres : ∀ s : String, (s == "total") = false →
      toNum (objGet (objSet (objSet acc "total" (jsIncr (objGet acc "total")))
          (statusKeyOf t) (jsIncr (objGet (objSet acc "total" (jsIncr (objGet acc "total")))
            (statusKeyOf t)))) s) =
        toNum (objGet acc s) + (if (statusKeyOf t == s) = true then 1 else 0) := by
    intro s h1
    by_cases hks : (statusKeyOf t == s) = true
    · have he : statusKeyOf t = s := by simpa using hks
      rw [he, objGet_objSet_same, toNum_jsIncr, objGet_objSet_ne h1]
      simp
    · simp only [Bool.not_eq_true] at hks
      rw [objGet_objSet_ne (beq_false_symm hks), objGet_objSet_ne h1, hks]
      simp
  have htot : toNum (objGet (objSet (objSet acc "total" (jsIncr (objGet acc "total")))
      (statusKeyOf t) (jsIncr (objGet (objSet acc "total" (jsIncr (objGet acc "total")))
        (statusKeyOf t)))) "total") = toNum (objGet acc "total") + 1 := by
    rw [objGet_objSet_ne htk, objGet_objSet_same, toNum_jsIncr]
  rcases hsub with hf | ⟨subs, hst, hall⟩
  · simp only [hf, Bool.false_eq_true, if_false]
    exact ⟨_, rfl, fun s h1 _ _ => hpres s h1, htot⟩
  · rw [hst]
    simp only [JVal.truthy]
    obtain ⟨a3, ha3, hp3⟩ := subFold_pres subs _ hall
    refine ⟨a3, ha3, ?_, ?_⟩
    · intro s h1 h2 h3
      rw [hp3 s h2 h3, hpres s h1]
    · rw [hp3 "total" (by decide) (by decide), htot]

lemma statsFoldFrom_spec : ∀ (ts : List JVal) (acc : List (String × JVal)),
    ts.all wfStatsTask = true →
    ∃ acc2, statsFoldFrom acc ts = .ok acc2 ∧
      (∀ s : String, (s == "total") = false → (s == "subtotalTasks") = false →
        (s == "subtasks") = false →
        toNum (objGet acc2 s) =
          toNum (objGet acc s) + (ts.countP (fun t => statusKeyOf t == s) : Int)) ∧
      toNum (objGet acc2 "total") = toNum (objGet acc "total") + ts.length := by
  intro ts
  induction ts with
  | nil => exact fun acc _ => ⟨acc, rfl, fun s _ _ _ => by simp, by simp⟩
  | cons t ts ih =>
    intro acc h
    have hw : wfStatsTask t = true := List.all_eq_true.mp h t (List.mem_cons_self _ _)
    have h' : ts.all wfStatsTask = true := by
      rw [List.all_eq_true] at h ⊢
      exact fun x hx => h x (List.mem_cons_of_mem _ hx)
    obtain ⟨a1, ha1, hp1, ht1⟩ := statsStep_spec hw acc
    obtain ⟨a2, ha2, hp2, ht2⟩ := ih a1 h'
    refine ⟨a2, ?_, ?_, ?_⟩
    · rw [statsFoldFrom, ha1]
      simpa using ha2
    · intro s h1 h2 h3
      rw [hp2 s h1 h2 h3, hp1 s h1 h2 h3, List.countP_cons]
      push_cast
      by_cases hc : (statusKeyOf t == s) = true
      · simp only [hc, if_true, if_pos]
        ring
      · simp only [Bool.not_eq_true] at hc
        simp only [hc, Bool.false_eq_true, if_false]
        ring
    · rw [ht2, ht1, List.length_cons]
      push_cast
      ring

lemma initialAcc_zero {s : String} (h1 : (s == "total") = false)
    (h2 : (s == "subtotalTasks") = false) (h3 : (s == "subtasks") = false) :
    toNum (objGet initialAcc s) = 0 := by
  have n1 := beq_false_symm h1
  have n2 := beq_false_symm h2
  have n3 := beq_false_symm h3
  by_cases e1 : ("pending" == s) = true
  · have : "pending" = s := by simpa using e1
    subst this; rfl
  · by_cases e2 : ("in-progress" == s) = true
    · have : "in-progress" = s := by simpa using e2
      subst this; rfl
    · by_cases e3 : ("done" == s) = true
      · have : "done" = s := by simpa using e3
        subst this; rfl
      · by_cases e4 : ("review" == s) = true
        · have : "review" = s := by simpa using e4
          subst this; rfl
        · by_cases e5 : ("deferred" == s) = true
          · have : "deferred" = s := by simpa using e5
            subst this; rfl
          · by_cases e6 : ("cancelled" == s) = true
            · have : "cancelled" = s := by simpa using e6
              subst this; rfl
            · simp only [Bool.not_eq_true] at e1 e2 e3 e4 e5 e6
              rw [initialAcc, objGet]
              simp only [List.find?, n1, n2, n3, e1, e2, e3, e4, e5, e6]
              rfl

lemma statusKey_eq_statusIs {t : JVal} (h : statusPrim t = true) (s : String)
    (hs1 : (s == "undefined") = false) (hs2 : (s == "null") = false) :
    (statusKeyOf t == s) = statusIs (jsGet t "status") s := by
  rw [statusPrim] at h
  rw [statusKeyOf]
  cases hst : jsGet t "status" with
  | str x => simp [jsToStringKey, statusIs]
  | undefined => simp [jsToStringKey, statusIs, beq_false_symm hs1]
  | null => simp [jsToStringKey, statusIs, beq_false_symm hs2]
  | bool b => rw [hst] at h; cases h
  | num n => rw [hst] at h; cases h
  | arr xs => rw [hst] at h; cases h
  | obj fs => rw [hst] at h; cases h

/-- C5: for every well-formed task list the metadata computation succeeds,
its total is the number of tasks, and the completion percentage equals
`round(doneCount / totalCount * 100)` when the total is positive and `0`
(not an error) when the task list is empty.  `Math.round` on the
double-precision quotient is modelled by round-half-up on the exact
rational value. -/
theorem completion_percentage_formula :
    ∀ tasks : List JVal, tasks.all wfStatsTask = true →
      ∃ m, taskMetadataOf tasks = .ok m ∧
        m.taskCount = (tasks.length : Int) ∧
        m.completionPercentage =
          (if tasks.length = 0 then 0
           else mathRound ((tasks.countP (fun t => statusIs (jsGet t "status") "done") : ℚ) /
             (tasks.length : ℚ) * 100)) := by
  intro tasks h
  obtain ⟨acc, hfold, hslots, htot⟩ := statsFoldFrom_spec tasks initialAcc h
  have htotal : toNum (objGet acc "total") = (tasks.length : Int) := by
    rw [htot]
    simp [initialAcc, objGet, toNum, List.find?]
  have hdone : toNum (objGet acc "done") =
      (tasks.countP (fun t => statusIs (jsGet t "status") "done") : Int) := by
    have hs := hslots "done" (by decide) (by decide) (by decide)
    have hz : toNum (objGet initialAcc "done") = 0 :=
      initialAcc_zero (by decide) (by decide) (by decide)
    have hc : tasks.countP (fun t => statusKeyOf t == "done")
        = tasks.countP (fun t => statusIs (jsGet t "status") "done") := by
      apply List.countP_congr
      intro t ht
      have hw := List.all_eq_true.mp h t ht
      rw [statusKey_eq_statusIs (wfStatsTask_parts hw).2.1 "done" (by decide) (by decide)]
    rw [hs, hz, hc]
    ring
  have hmeta : taskMetadataOf tasks = .ok {
      taskCount := toNum (objGet acc "total")
      subtaskCount := toNum (objGet acc "subtotalTasks")
      completed := toNum (jsOr (objGet acc "done") (.num 0))
      pending := toNum (jsOr (objGet acc "pending") (.num 0))
      inProgress := toNum (jsOr (objGet acc "in-progress") (.num 0))
      review := toNum (jsOr (objGet acc "review") (.num 0))
      completionPercentage := if toNum (objGet acc "total") > 0 then
        mathRound ((toNum (objGet acc "done") : ℚ) / (toNum (objGet acc "total") : ℚ) * 100)
        else 0 } := by
    rw [taskMetadataOf, hfold]
    rfl
  refine ⟨_, hmeta, htotal, ?_⟩
  show (if toNum (objGet acc "total") > 0 then
      mathRound ((toNum (objGet acc "done") : ℚ) / (toNum (objGet acc "total") : ℚ) * 100)
      else 0) = _
  rw [htotal, hdone]
  by_cases hl : tasks.length = 0
  · simp [hl]
  · have hpos : (0 : Int) < (tasks.length : Int) := by
      have := Nat.pos_of_ne_zero hl
      exact_mod_cast this
    rw [if_pos hpos, if_neg hl]
    push_cast
    rfl

/-- Witness for C5 at a single done task: the percentage is 100. -/
theorem completion_percentage_formula_witness :
    ([JVal.obj [("status", .str "done")]].all wfStatsTask = true) ∧
    ∃ m, taskMetadataOf [JVal.obj [("status", .str "done")]] = .ok m ∧
      m.taskCount = 1 ∧ m.completionPercentage = 100 := by
  refine ⟨by decide, ?_⟩
  obtain ⟨m, h1, h2, h3⟩ :=
    completion_percentage_formula [JVal.obj [("status", .str "done")]] (by decide)
  refine ⟨m, h1, by simpa using h2, ?_⟩
  rw [h3]
  have hc : ([JVal.obj [("status", JVal.str "done")]].countP
      (fun t => statusIs (jsGet t "status") "done")) = 1 := rfl
  rw [if_neg (by decide : ¬([JVal.obj [("status", JVal.str "done")]].length = 0)), hc]
  norm_num [mathRound]

lemma normalizeTasks_ok_buckets {now : String} {j : JVal} {r : NormResult}
    (h : normalizeTasks now j = .ok r) : r.tasksByStatus = sixBuckets r.tasks := by
  rw [normalizeTasks] at h
  cases hr : resolveTasks j with
  | error e => rw [hr] at h; cases e; simp at h
  | ok p =>
    rw [hr, exceptOkBind] at h
    obtain ⟨v, tag⟩ := p
    cases v with
    | arr xs =>
      cases hm : mapE (transformTask now) xs with
      | error e => cases e; simp [hm] at h
      | ok ts =>
        simp only [hm, exceptOkBind, exceptPureEq] at h
        cases h
        rfl
    | undefined => simp at h
    | null => simp at h
    | bool b => simp at h
    | num n => simp at h
    | str s => simp at h
    | obj fs => simp at h

/-- C6 (amended): in the normalizer output, `tasksByStatus` counts every
task under its status for exactly the six fixed enum values and contains no
key outside that fixed set — a task with an out-of-set status is counted
nowhere there.  Statuses outside the fixed set are preserved under their
literal key only in the folder-detection statistics fold, where every
non-reserved key holds exactly the number of tasks whose status stringifies
to it. -/
theorem status_bucketing_amended :
    (∀ (now : String) (j : JVal) (r : NormResult), normalizeTasks now j = .ok r →
      r.tasksByStatus = [("pending", statusCount r.tasks "pending"),
        ("in-progress", statusCount r.tasks "in-progress"),
        ("done", statusCount r.tasks "done"),
        ("review", statusCount r.tasks "review"),
        ("deferred", statusCount r.tasks "deferred"),
        ("cancelled", statusCount r.tasks "cancelled")] ∧
      (∀ s : String,
        s ∉ (["pending", "in-progress", "done", "review", "deferred", "cancelled"] : List String) →
        r.tasksByStatus.find? (fun p => p.1 == s) = none)) ∧
    (∀ tasks : List JVal, tasks.all wfStatsTask = true →
      ∃ acc, statsFoldFrom initialAcc tasks = .ok acc ∧
        ∀ s : String, (s == "total") = false → (s == "subtotalTasks") = false →
          (s == "subtasks") = false →
          toNum (objGet acc s) = (tasks.countP (fun t => statusKeyOf t == s) : Int)) := by
  constructor
  · intro now j r h
    have hb := normalizeTasks_ok_buckets h
    refine ⟨hb, ?_⟩
    intro s hs
    rw [hb]
    show (sixBuckets r.tasks).find? (fun p => p.1 == s) = none
    rw [List.find?_eq_none]
    intro p hp
    rw [sixBuckets] at hp
    simp only [List.mem_cons, List.not_mem_nil, or_false] at hp
    rcases hp with rfl | rfl | rfl | rfl | rfl | rfl <;>
      · intro hc
        have he := eq_of_beq hc
        subst he
        exact hs (by simp)
  · intro tasks h
    obtain ⟨acc, hfold, hslots, _⟩ := statsFoldFrom_spec tasks initialAcc h
    refine ⟨acc, hfold, ?_⟩
    intro s h1 h2 h3
    rw [hslots s h1 h2 h3, initialAcc_zero h1 h2 h3]
    ring

/-- C6 counterexample: a task with status `blocked` appears in the
normalizer output, yet `tasksByStatus` carries no `blocked` key — the
literal status is not preserved in the normalization counts. -/
theorem status_bucketing_counterexample :
    normalizeTasks "T0" (.obj [("tasks", .arr [.obj [("id", .num 1), ("status", .str "blocked")]])])
      = .ok ⟨[.obj [("id", .num 1), ("title", .str "Untitled Task"), ("description", .str ""),
          ("status", .str "blocked"), ("priority", .str "medium"), ("dependencies", .arr []),
          ("createdAt", .str "T0"), ("updatedAt", .str "T0"), ("details", .str ""),
          ("testStrategy", .str ""), ("subtasks", .arr [])]], "master",
        [("pending", 0), ("in-progress", 0), ("done", 0), ("review", 0), ("deferred", 0),
         ("cancelled", 0)]⟩ ∧
    statusIs (jsGet (.obj [("id", .num 1), ("title", .str "Untitled Task"),
        ("description", .str ""), ("status", .str "blocked"), ("priority", .str "medium"),
        ("dependencies", .arr []), ("createdAt", .str "T0"), ("updatedAt", .str "T0"),
        ("details", .str ""), ("testStrategy", .str ""), ("subtasks", .arr [])]) "status")
      "blocked" = true ∧
    ([("pending", 0), ("in-progress", 0), ("done", 0), ("review", 0), ("deferred", 0),
      ("cancelled", 0)] : List (String × Nat)).find? (fun p => p.1 == "blocked") = none :=
  ⟨rfl, rfl, rfl⟩

/-- Witness for the amended C6 theorem: the six-key bucket list of a
normalizer run has no `weird` key, and the detection statistics count one
task under the literal key `weird`. -/
theorem status_bucketing_amended_witness :
    (NormResult.mk [] "master"
        [("pending", 0), ("in-progress", 0), ("done", 0), ("review", 0), ("deferred", 0),
         ("cancelled", 0)]).tasksByStatus.find? (fun p => p.1 == "weird") = none ∧
    ([JVal.obj [("status", .str "weird")]].all wfStatsTask = true) ∧
    (∃ acc, statsFoldFrom initialAcc [JVal.obj [("status", .str "weird")]] = .ok acc ∧
      toNum (objGet acc "weird") = 1) := by
  refine ⟨?_, by decide, ?_⟩
  · exact (status_bucketing_amended.1 "T0" (.arr []) _ rfl).2 "weird" (by decide)
  · obtain ⟨acc, hf, hs⟩ := status_bucketing_amended.2 [JVal.obj [("status", .str "weird")]]
      (by decide)
    exact ⟨acc, hf, by rw [hs "weird" (by decide) (by decide) (by decide)]; decide⟩


lemma mcpEntryMatches_eq {n : String} {c : JVal} (h : wfServerEntry (n, c) = true) :
    mcpEntryMatchesE n c = .ok (specMatch n c) := by
  rw [wfServerEntry, Bool.and_eq_true] at h
  obtain ⟨hobj, hcmd⟩ := h
  have hct : c.truthy = true := by
    cases c <;> simp_all [JVal.isObjB, JVal.truthy]
  rw [mcpEntryMatchesE, specMatch]
  by_cases h1 : (n == "task-master-ai") = true
  · simp [h1]
  · simp only [Bool.not_eq_true] at h1
    by_cases h2 : strContains n "task-master" = true
    · simp [h1, h2]
    · simp only [Bool.not_eq_true] at h2
      cases hc : jsGet c "command" with
      | str s2 =>
        by_cases hs : (s2 == "") = true
        · have he : s2 = "" := by simpa using hs
          subst he
          have hsf : (JVal.str "").truthy = false := rfl
          simp [h1, h2, hct, hc, hsf, show strContains "" "task-master" = false from rfl]
        · simp only [Bool.not_eq_true] at hs
          have hst : (JVal.str s2).truthy = true := by simp [JVal.truthy, hs]
          simp [h1, h2, hct, hc, hst]
      | undefined =>
        have hsf : JVal.undefined.truthy = false := rfl
        simp [h1, h2, hct, hc, hsf]
      | null =>
        have hsf : JVal.null.truthy = false := rfl
        simp [h1, h2, hct, hc, hsf]
      | bool b => rw [hc] at hcmd; cases hcmd
      | num m => rw [hc] at hcmd; cases hcmd
      | arr xs => rw [hc] at hcmd; cases hcmd
      | obj fs => rw [hc] at hcmd; cases hcmd

lemma findEntryE_eq : ∀ entries : List (String × JVal),
    entries.all wfServerEntry = true →
    findEntryE entries = .ok (specFirstMatch entries) := by
  intro entries
  induction entries with
  | nil => exact fun _ => rfl
  | cons nc rest ih =>
    intro h
    obtain ⟨n, c⟩ := nc
    have h1 : wfServerEntry (n, c) = true :=
      List.all_eq_true.mp h (n, c) (List.mem_cons_self _ _)
    have h2 : rest.all wfServerEntry = true := by
      rw [List.all_eq_true] at h ⊢
      exact fun x hx => h x (List.mem_cons_of_mem _ hx)
    rw [findEntryE, specFirstMatch, mcpEntryMatches_eq h1, exceptOkBind]
    by_cases hm : specMatch n c = true
    · simp [hm]
    · simp only [Bool.not_eq_true] at hm
      simp [hm, ih h2]

lemma specFirstMatch_mem : ∀ {entries : List (String × JVal)} {nc : String × JVal},
    specFirstMatch entries = some nc → nc ∈ entries := by
  intro entries
  induction entries with
  | nil => intro nc h; cases h
  | cons e rest ih =>
    intro nc h
    obtain ⟨n, c⟩ := e
    rw [specFirstMatch] at h
    by_cases hm : specMatch n c = true
    · rw [if_pos hm] at h
      cases h
      exact List.mem_cons_self _ _
    · rw [if_neg hm] at h
      exact List.mem_cons_of_mem _ (ih h)

lemma projFindE_eq : ∀ prs : List (String × JVal),
    prs.all (fun p => !p.2.isNullish && (serversOf p.2).all wfServerEntry) = true →
    projFindE prs = .ok (specProjFirst prs) := by
  intro prs
  induction prs with
  | nil => exact fun _ => rfl
  | cons p rest ih =>
    intro h
    obtain ⟨pp, pc⟩ := p
    have h1 := List.all_eq_true.mp h (pp, pc) (List.mem_cons_self _ _)
    rw [Bool.and_eq_true] at h1
    obtain ⟨hnn, hwf⟩ := h1
    have hnn' : pc.isNullish = false := by simpa using hnn
    have h2 : rest.all (fun p => !p.2.isNullish && (serversOf p.2).all wfServerEntry) = true := by
      rw [List.all_eq_true] at h ⊢
      exact fun x hx => h x (List.mem_cons_of_mem _ hx)
    rw [projFindE, specProjFirst]
    simp only [hnn', Bool.false_eq_true, if_false]
    by_cases hml : ((jsGet pc "mcpServers").truthy && isObjectLike (jsGet pc "mcpServers")) = true
    · have hsrv : serversOf pc = jsEntries (jsGet pc "mcpServers") := by
        rw [serversOf]
        simp [hml]
      rw [hsrv] at hwf
      simp only [hml, if_true]
      rw [findEntryE_eq _ hwf, exceptOkBind, ← hsrv]
      cases specFirstMatch (serversOf pc) with
      | some nc => rfl
      | none => exact ih h2
    · simp only [Bool.not_eq_true] at hml
      have hsrv : serversOf pc = [] := by
        rw [serversOf]
        simp [hml]
      rw [hsrv]
      simp only [hml, Bool.false_eq_true, if_false]
      rw [specFirstMatch]
      exact ih h2

lemma specProjFirst_wf : ∀ {prs : List (String × JVal)} {nc : String × JVal},
    specProjFirst prs = some nc →
    prs.all (fun p => !p.2.isNullish && (serversOf p.2).all wfServerEntry) = true →
    wfServerEntry nc = true := by
  intro prs
  induction prs with
  | nil => intro nc h; cases h
  | cons p rest ih =>
    intro nc h hall
    obtain ⟨pp, pc⟩ := p
    have h1 := List.all_eq_true.mp hall (pp, pc) (List.mem_cons_self _ _)
    rw [Bool.and_eq_true] at h1
    have hall2 : rest.all (fun p => !p.2.isNullish && (serversOf p.2).all wfServerEntry) = true := by
      rw [List.all_eq_true] at hall ⊢
      exact fun x hx => hall x (List.mem_cons_of_mem _ hx)
    rw [specProjFirst] at h
    cases hfm : specFirstMatch (serversOf pc) with
    | some nc2 =>
      rw [hfm] at h
      cases h
      exact List.all_eq_true.mp h1.2 _ (specFirstMatch_mem hfm)
    | none =>
      rw [hfm] at h
      exact ih h hall2

lemma serverTypeE_ok {c : JVal} (h : c.isNullish = false) :
    ∃ ty, serverTypeE c = .ok ty := by
  rw [serverTypeE]
  simp only [h, Bool.false_eq_true, if_false]
  by_cases h1 : (jsGet c "command").truthy = true
  · exact ⟨_, by rw [if_pos h1]⟩
  · by_cases h2 : (jsGet c "url").truthy = true
    · exact ⟨_, by rw [if_neg h1, if_pos h2]⟩
    · exact ⟨_, by rw [if_neg h1, if_neg h2]⟩

/-- C10 (amended): on well-formed configurations (server entry configs are
objects whose command, if present, is a string or null; project values
non-nullish), the detector reports a server found exactly when some entry of
the user-scoped mcpServers map — searched first, so a user match takes
precedence with scope `user` — or, failing that, of some project's map
matches by name equal to `task-master-ai`, name containing `task-master`,
or command containing `task-master`; the matched entry is isConfigured
exactly when it has a truthy (non-empty) command or url. -/
theorem mcp_detection_amended :
    ∀ configData : JVal, wfMCPConfig configData = true →
      detectTaskMasterMCP configData = detectSpec configData := by
  intro cfg h
  rw [wfMCPConfig, Bool.and_eq_true] at h
  obtain ⟨huser, hproj⟩ := h
  rw [detectTaskMasterMCP, detectCoreE, detectSpec]
  by_cases hct : cfg.truthy = true
  case neg =>
    simp only [Bool.not_eq_true] at hct
    simp [hct]
  case pos =>
  simp only [hct, Bool.not_true, Bool.false_eq_true, if_false]
  have hfinish : ∀ (nc : String × JVal), wfServerEntry nc = true → ∀ scope : String,
      (match (do
          let _ty ← serverTypeE nc.2
          pure (⟨true, some (nc.2.truthy &&
            ((jsGet nc.2 "command").truthy || (jsGet nc.2 "url").truthy)),
            some scope⟩ : MCPResult) : Except Unit MCPResult) with
        | .ok r => r
        | .error _ => mcpNotFound)
      = ⟨true, some (specConfigured nc.2), some scope⟩ := by
    intro nc hwfe scope
    rw [wfServerEntry, Bool.and_eq_true] at hwfe
    obtain ⟨hobj, -⟩ := hwfe
    have hnn : nc.2.isNullish = false := by
      cases hc2 : nc.2 <;> simp_all [JVal.isObjB, JVal.isNullish]
    have hctr : nc.2.truthy = true := by
      cases hc2 : nc.2 <;> simp_all [JVal.isObjB, JVal.truthy]
    obtain ⟨ty, hty⟩ := serverTypeE_ok hnn
    rw [hty, exceptOkBind]
    simp [hctr, specConfigured]
  by_cases hml : ((jsGet cfg "mcpServers").truthy && isObjectLike (jsGet cfg "mcpServers")) = true
  · have hsrv : serversOf cfg = jsEntries (jsGet cfg "mcpServers") := by
      rw [serversOf]; simp [hml]
    rw [hsrv] at huser
    simp only [hml, if_true]
    rw [findEntryE_eq _ huser, exceptOkBind, ← hsrv]
    cases hfm : specFirstMatch (serversOf cfg) with
    | some nc =>
      have hwfe : wfServerEntry nc = true :=
        List.all_eq_true.mp huser _ (by rw [← hsrv]; exact specFirstMatch_mem hfm)
      exact hfinish nc hwfe "user"
    | none =>
      by_cases hpt : (jsGet cfg "projects").truthy = true
      · simp only [hpt, if_true]
        have hps : (jsEntries (jsGet cfg "projects")).all
            (fun p => !p.2.isNullish && (serversOf p.2).all wfServerEntry) = true := by
          simpa only [hpt, Bool.not_true, Bool.false_or] using hproj
        rw [projFindE_eq _ hps, exceptOkBind]
        cases hpf : specProjFirst (jsEntries (jsGet cfg "projects")) with
        | some nc => exact hfinish nc (specProjFirst_wf hpf hps) "local"
        | none => rfl
      · simp only [Bool.not_eq_true] at hpt
        simp [hpt]
  · have hsrv : serversOf cfg = [] := by
      rw [serversOf]; simp only [Bool.not_eq_true] at hml; simp [hml]
    rw [hsrv]
    simp only [hml, Bool.false_eq_true, if_false, specFirstMatch]
    by_cases hpt : (jsGet cfg "projects").truthy = true
    · simp only [hpt, if_true]
      have hps : (jsEntries (jsGet cfg "projects")).all
          (fun p => !p.2.isNullish && (serversOf p.2).all wfServerEntry) = true := by
        simpa only [hpt, Bool.not_true, Bool.false_or] using hproj
      rw [projFindE_eq _ hps, exceptOkBind]
      cases hpf : specProjFirst (jsEntries (jsGet cfg "projects")) with
      | some nc => exact hfinish nc (specProjFirst_wf hpf hps) "local"
      | none => rfl
    · simp only [Bool.not_eq_true] at hpt
      simp [hpt]

/-- C10 counterexample: an entry named `task-master` with a null config
matches by name, yet the detector reports hasMCPServer false — building the
server record dereferences `config.command` on null, and the catch turns
the TypeError into a not-found result; the claimed if-and-only-if fails. -/
theorem mcp_null_entry_counterexample :
    detectTaskMasterMCP (.obj [("mcpServers", .obj [("task-master", JVal.null)])]) =
      mcpNotFound ∧
    detectSpec (.obj [("mcpServers", .obj [("task-master", JVal.null)])]) =
      ⟨true, some false, some "user"⟩ ∧
    mcpNotFound ≠ (⟨true, some false, some "user"⟩ : MCPResult) :=
  ⟨rfl, rfl, by decide⟩

/-- Witness for the amended C10 theorem at a well-formed single-entry
user-scoped configuration. -/
theorem mcp_detection_amended_witness :
    wfMCPConfig (.obj [("mcpServers", .obj [("task-master-ai",
        .obj [("command", .str "npx task-master-ai")])])]) = true ∧
    detectTaskMasterMCP (.obj [("mcpServers", .obj [("task-master-ai",
        .obj [("command", .str "npx task-master-ai")])])])
      = detectSpec (.obj [("mcpServers", .obj [("task-master-ai",
        .obj [("command", .str "npx task-master-ai")])])]) ∧
    detectSpec (.obj [("mcpServers", .obj [("task-master-ai",
        .obj [("command", .str "npx task-master-ai")])])])
      = ⟨true, some true, some "user"⟩ :=
  ⟨rfl, mcp_detection_amended _ rfl, rfl⟩


lemma mem_dedupeFirstF : ∀ (fuel : Nat) (l : List String) (x : String),
    x ∈ dedupeFirstF fuel l → x ∈ l := by
  intro fuel
  induction fuel with
  | zero =>
    intro l x h
    cases l with
    | nil => cases h
    | cons y ys => cases h
  | succ fuel ih =>
    intro l x h
    cases l with
    | nil => cases h
    | cons y ys =>
      rw [dedupeFirstF] at h
      rcases List.mem_cons.mp h with h1 | h1
      · exact h1 ▸ List.mem_cons_self _ _
      · exact List.mem_cons_of_mem _ (List.mem_of_mem_filter (ih _ x h1))

lemma dedupeFirstF_nodup : ∀ (fuel : Nat) (l : List String),
    (dedupeFirstF fuel l).Nodup := by
  intro fuel
  induction fuel with
  | zero =>
    intro l
    cases l with
    | nil => exact List.nodup_nil
    | cons y ys => exact List.nodup_nil
  | succ fuel ih =>
    intro l
    cases l with
    | nil => exact List.nodup_nil
    | cons y ys =>
      rw [dedupeFirstF]
      refine List.nodup_cons.mpr ⟨?_, ih _⟩
      intro hmem
      have := List.of_mem_filter (mem_dedupeFirstF fuel _ y hmem)
      simp at this

lemma hasSubList_cons {pat : List Char} {l : List Char} (c : Char)
    (h : hasSubList pat l = true) : hasSubList pat (c :: l) = true := by
  rw [hasSubList, Bool.or_eq_true]
  exact Or.inr h

lemma hasSubList_append {pat ys : List Char} (xs : List Char)
    (h : hasSubList pat ys = true) : hasSubList pat (xs ++ ys) = true := by
  induction xs with
  | nil => exact h
  | cons x xs ih => exact hasSubList_cons x ih

lemma isPrefixOf_append_same : ∀ (a b c : List Char),
    (a ++ b).isPrefixOf (a ++ c) = b.isPrefixOf c := by
  intro a b c
  induction a with
  | nil => rfl
  | cons x a ih => simp [List.isPrefixOf, ih]

lemma take_length_takeWhile (p : Char → Bool) : ∀ l : List Char,
    l.take (l.takeWhile p).length = l.takeWhile p := by
  intro l
  induction l with
  | nil => rfl
  | cons a l ih =>
    by_cases h : p a = true
    · simp [List.takeWhile_cons, h, ih]
    · simp only [Bool.not_eq_true] at h
      simp [List.takeWhile_cons, h]

lemma takeWhile_drop_decomp (p : Char → Bool) (l : List Char) :
    l = l.takeWhile p ++ l.drop (l.takeWhile p).length := by
  conv_lhs => rw [← List.take_append_drop (l.takeWhile p).length l]
  rw [take_length_takeWhile]

lemma scanRawF_sound : ∀ (fuel : Nat) (cs : List Char), cs.length ≤ fuel →
    ∀ n ∈ scanRawF fuel cs,
      n ≠ "" ∧ n.toList.all (fun c => !(c = ']')) = true ∧
      hasSubList ('[' :: (n.toList ++ [']'])) cs = true := by
  intro fuel
  induction fuel with
  | zero =>
    intro cs _ n h
    cases cs with
    | nil => cases h
    | cons c cs2 => cases h
  | succ fuel ih =>
    intro cs hlen n hn
    cases cs with
    | nil => cases hn
    | cons c cs2 =>
      rw [scanRawF] at hn
      simp only [List.length_cons, Nat.succ_le_succ_iff] at hlen
      by_cases hcb : c = '['
      · rw [if_pos hcb] at hn
        cases hdr : cs2.drop (cs2.takeWhile (fun d => !(d = ']'))).length with
        | nil =>
          rw [hdr] at hn
          obtain ⟨h1, h2, h3⟩ := ih cs2 hlen n hn
          exact ⟨h1, h2, hasSubList_cons c h3⟩
        | cons d rest =>
          rw [hdr] at hn
          by_cases hd : d = ']'
          · subst hd
            have hn2 : n ∈ (if (cs2.takeWhile (fun d => !(d = ']'))).isEmpty = true
                then scanRawF fuel cs2
                else String.mk (cs2.takeWhile (fun d => !(d = ']'))) :: scanRawF fuel rest) := hn
            by_cases hrun : (cs2.takeWhile (fun d => !(d = ']'))).isEmpty = true
            · rw [if_pos hrun] at hn2
              obtain ⟨h1, h2, h3⟩ := ih cs2 hlen n hn2
              exact ⟨h1, h2, hasSubList_cons c h3⟩
            · rw [if_neg hrun] at hn2
              replace hn := hn2
              have hdecomp : cs2 = cs2.takeWhile (fun d => !(d = ']')) ++ (']' :: rest) := by
                conv_lhs => rw [takeWhile_drop_decomp (fun d => !(d = ']')) cs2]
                rw [hdr]
              rcases List.mem_cons.mp hn with h1 | h1
              · subst h1
                refine ⟨?_, ?_, ?_⟩
                · intro he
                  have hx : (cs2.takeWhile (fun d => !(d = ']'))) = [] := congrArg String.data he
                  rw [hx] at hrun
                  simp at hrun
                · rw [List.all_eq_true]
                  intro x hx
                  have := List.mem_takeWhile_imp hx
                  simpa using this
                · subst hcb
                  rw [hasSubList, Bool.or_eq_true]
                  left
                  show (('[' :: ((String.mk (cs2.takeWhile (fun d => !(d = ']')))).toList ++
                    [']'])).isPrefixOf ('[' :: cs2)) = true
                  rw [show (String.mk (cs2.takeWhile (fun d => !(d = ']')))).toList
                        = cs2.takeWhile (fun d => !(d = ']')) from rfl]
                  simp only [List.isPrefixOf, beq_self_eq_true, Bool.true_and]
                  nth_rewrite 2 [hdecomp]
                  rw [isPrefixOf_append_same]
                  simp [List.isPrefixOf]
              · have hrest : rest.length ≤ fuel := by
                  have := congrArg List.length hdecomp
                  simp only [List.length_append, List.length_cons] at this
                  omega
                obtain ⟨h1, h2, h3⟩ := ih rest hrest n h1
                refine ⟨h1, h2, hasSubList_cons c ?_⟩
                rw [hdecomp]
                exact hasSubList_append _ (hasSubList_cons ']' h3)
          · have hn2 : n ∈ (if d = ']' then
                (if (cs2.takeWhile (fun d => !(d = ']'))).isEmpty = true
                  then scanRawF fuel cs2
                  else String.mk (cs2.takeWhile (fun d => !(d = ']'))) :: scanRawF fuel rest)
                else scanRawF fuel cs2) := hn
            rw [if_neg hd] at hn2
            obtain ⟨h1, h2, h3⟩ := ih cs2 hlen n hn2
            exact ⟨h1, h2, hasSubList_cons c h3⟩
      · rw [if_neg hcb] at hn
        obtain ⟨h1, h2, h3⟩ := ih cs2 hlen n hn
        exact ⟨h1, h2, hasSubList_cons c h3⟩

/-- C9 counterexample: on the text `x[a[b]y` the scan collects `a[b` —
pairing the first `[` with the nearest `]` — although `[b]` occurs
literally in the text and its clean name `b` is not collected; the result
is not the set of bracket-delimited placeholder names. -/
theorem placeholder_scan_counterexample :
    scanPlaceholders "x[a[b]y" = ["a[b"] ∧
    strContains "x[a[b]y" "[b]" = true ∧
    ("a[b".toList.contains '[') = true ∧
    ¬ ("b" ∈ scanPlaceholders "x[a[b]y") :=
  ⟨rfl, rfl, rfl, by decide⟩

/-- C9 (amended): the placeholder scan collects, without duplicates and in
match order, the names of the leftmost non-overlapping regex matches (each
`[` paired with the nearest following `]` over a nonempty gap); every
collected name is nonempty, free of `]`, and occurs bracket-delimited in
the text, but with nested `[` a placeholder may be missed or collected with
`[` inside its name.  On the specification's example text the result is
`["Name", "Project"]`. -/
theorem placeholder_scan_amended :
    (∀ t : String, (scanPlaceholders t).Nodup) ∧
    (∀ t : String, ∀ n ∈ scanPlaceholders t,
      n ≠ "" ∧ n.toList.all (fun c => !(c = ']')) = true ∧
      strContains t ("[" ++ n ++ "]") = true) ∧
    scanPlaceholders "Hello [Name], welcome to [Project]! - [Name]" = ["Name", "Project"] := by
  refine ⟨?_, ?_, rfl⟩
  · intro t
    exact dedupeFirstF_nodup _ _
  · intro t n hn
    have hmem : n ∈ scanRaw t.toList := mem_dedupeFirstF _ _ _ hn
    obtain ⟨h1, h2, h3⟩ := scanRawF_sound _ _ (le_refl _) n hmem
    refine ⟨h1, h2, ?_⟩
    rw [strContains]
    have hdata : ("[" ++ n ++ "]").toList = '[' :: (n.toList ++ [']']) := by
      show ("[" ++ n ++ "]").data = _
      rw [String.data_append, String.data_append]
      rfl
    rw [hdata]
    exact h3

/-- Witness for the amended C9 theorem at the example text and the
collected name `Name`. -/
theorem placeholder_scan_amended_witness :
    ("Name" ∈ scanPlaceholders "Hello [Name], welcome to [Project]! - [Name]") ∧
    ("Name" ≠ "" ∧ "Name".toList.all (fun c => !(c = ']')) = true ∧
      strContains "Hello [Name], welcome to [Project]! - [Name]" ("[" ++ "Name" ++ "]") = true) :=
  ⟨by decide, placeholder_scan_amended.2.1 _ "Name" (by decide)⟩

/-- C8: the escape step of the apply-template handler matches nothing on
ordinary keys (its regex requires two backslashes before a closing
bracket), so `[Name]` reaches `new RegExp` unescaped and is parsed as a
character class: instead of replacing occurrences of the placeholder
`[Name]`, the handler replaces every single character `N`, `a`, `m`, `e`
anywhere in the template with the value.  Evaluated at the specification's
own example, the output bears no resemblance to the required one. -/
theorem template_charclass_codebug :
    escapePH "[Name]".toList = "[Name]".toList ∧
    applyTemplateCustomizations "Hi [X]" [("X", "Y")] = "Hi [Y]" ∧
    applyTemplateCustomizations "Hello [Name], welcome to [Project]! - [Name]"
        [("Name", "Ann"), ("Project", "Acme")]
      = "HAnnllAcme [AnnAnnAnnAnn], wAnnlAcmeAcmeAnnAnn AcmeAcme [AcmeAcmeAcmeAcmeAnnAcmeAcme]! - [AnnAnnAnnAnn]" ∧
    ¬ (applyTemplateCustomizations "Hi [X]" [("X", "Y")] = "Hi Y") ∧
    ¬ (applyTemplateCustomizations "Hello [Name], welcome to [Project]! - [Name]"
        [("Name", "Ann"), ("Project", "Acme")]
      = "Hello Ann, welcome to Acme! - Ann") :=
  ⟨rfl, rfl, rfl, by decide, by decide⟩
